import Mathlib

/-!
Formal model of the BedSolution-CLI telemetry collector.

Each Lean definition below is a shallow embedding of a function of the
repository, translated from the Python source:

* `detectFromPrediction` — `src/service/detection/posture_detection.py`,
  the class/flag policy applied to the classifier output (`detect`, the
  `match posture` block).
* heatmap composition — `src/service/heatmap_tools/heatmap_converter.py`.
* serial line parsing and board state — `src/core/serialcm/serial_communication.py`.
* the accumulation cache, threshold/notification logic and remote sync —
  `src/service/pressure_logger/pressure_logger.py`.

Machine integers are modelled as `Int`/`Nat` (Python integers are unbounded),
numpy float grids as `ℚ` matrices (the inputs and interpolation weights in the
verified scenarios are exact rationals), and fallible remote calls as explicit
outcome values.
-/

/-! ## Posture classification adapter (`posture_detection.py`) -/

/-- A Python exception class, as far as the verified properties distinguish
them. -/
inductive PyErr where
  | typeError
  | attributeError
  deriving DecidableEq, Repr

/-- The checked-in posture enumeration
(`core/server/models/pressure_log.py`, lines 4–10). It has exactly these six
members; in particular there is no `SUPINE_RIGHT`, `SUPINE_LEFT` or
`SUPINE_BOTH`. -/
inductive PostureType where
  | unknown
  | sitting
  | leftSide
  | rightSide
  | supine
  | prone
  deriving DecidableEq, Repr

/-- Result record of `PostureDetector.detect`
(`posture_detection.py`, class `PostureDetectionResult`, lines 10–19): a
posture class plus the seven per-region risk flags, split left/right. -/
structure PostureDetectionResult where
  type : PostureType
  occiput : Bool
  scapula : Bool
  rightElbow : Bool
  leftElbow : Bool
  hip : Bool
  rightHeel : Bool
  leftHeel : Bool
  deriving DecidableEq, Repr

/-- The `match posture` block of `PostureDetector.detect`
(`posture_detection.py` lines 60–112), given the classifier prediction
`(posture, upper_body, right_leg, left_leg, feet)`. The `upperBody` and
`feet` raw flags are accepted but never read, exactly as in the source.

For class 0 the code first sets all supine flags, then refines by the leg
flags; the one-leg branches (lines 88–93) and the no-leg branch (lines
94–97) assign `PostureType.SUPINE_RIGHT` / `SUPINE_LEFT` / `SUPINE_BOTH`,
members the checked-in enumeration does not define, so those branches raise
`AttributeError` (after mutating the heel flags of the never-returned
result) instead of returning. Only the both-legs branch returns. -/
def detectFromPrediction (posture : Int) (upperBody rightLeg leftLeg feet : Bool) :
    Except PyErr PostureDetectionResult :=
  let base : PostureDetectionResult :=
    ⟨PostureType.unknown, false, false, false, false, false, false, false⟩
  match posture with
  | 0 =>
    if leftLeg && rightLeg then
      Except.ok
        { base with
          type := PostureType.supine
          occiput := true
          scapula := true
          hip := true
          leftHeel := true
          rightHeel := true
          leftElbow := true
          rightElbow := true }
    else
      -- line 90 / 93 / 97: `PostureType.SUPINE_RIGHT` (resp. `SUPINE_LEFT`,
      -- `SUPINE_BOTH`) — the enum lacks the member, so the attribute access
      -- raises and `detect` never returns on these branches
      Except.error PyErr.attributeError
  | 1 => Except.ok { base with type := PostureType.leftSide, leftElbow := true, leftHeel := true }
  | 2 => Except.ok { base with type := PostureType.rightSide, rightElbow := true, rightHeel := true }
  | 3 => Except.ok { base with type := PostureType.prone }
  | 5 => Except.ok { base with type := PostureType.sitting, hip := true }
  | _ => Except.ok base

/-! ## Heatmap compositor (`heatmap_converter.py`)

Grids are `List (List ℚ)` (rows of a 2-D numpy array). `RectBivariateSpline`
with `kx = ky = 1` — the only spline the verified claims exercise, since the
`LINEAR` method clamps both orders to 1 — is the interpolating bilinear
spline, i.e. separable piecewise-linear interpolation, which is implemented
exactly over `ℚ`. -/

/-- Floor of a rational, as a natural number (negative rationals clamp to 0);
kernel-computable counterpart of `⌊q⌋.toNat`. -/
def ratFloorToNat (q : ℚ) : ℕ := (q.num.fdiv (q.den : ℤ)).toNat

/-- Piecewise-linear sample of the value list `vs` (nodes at
`np.linspace(0,1,len vs)`) at normalized coordinate `x`; the common kernel of
`np.interp` and an order-1 spline axis. -/
def sampleLin (vs : List ℚ) (x : ℚ) : ℚ :=
  match vs with
  | [] => 0
  | [v] => v
  | _ =>
    let c := vs.length
    let s := x * ((c : ℚ) - 1)
    let j := min (ratFloorToNat s) (c - 2)
    let frac := s - (j : ℚ)
    vs.getD j 0 + frac * (vs.getD (j + 1) 0 - vs.getD j 0)

/-- Normalized sample coordinates `np.linspace(0, 1, n)` (for `n = 1`, numpy
returns `[0.]`). -/
def linspace01 (n : ℕ) : List ℚ :=
  if n ≤ 1 then [0] else (List.range n).map fun k => (k : ℚ) / ((n : ℚ) - 1)

/-- Linear interpolation of every row to `targetCols` columns. -/
def resizeColsLin (m : List (List ℚ)) (targetCols : ℕ) : List (List ℚ) :=
  m.map fun row => (linspace01 targetCols).map fun x => sampleLin row x

/-- Linear interpolation of every column to `targetRows` rows. -/
def resizeRowsLin (m : List (List ℚ)) (targetRows : ℕ) : List (List ℚ) :=
  let cols := (m.head?.map List.length).getD 0
  (linspace01 targetRows).map fun y =>
    (List.range cols).map fun j => sampleLin (m.map fun row => row.getD j 0) y

/-- Model of `HeatmapConverter._resize_with_interpolation` at the `LINEAR`
method (the source default; with it `kx = ky = 1` whenever the spline path is
taken). Structure mirrors the source: the no-resize shortcut, the spline path
for grids with at least 2 points per axis, and the degenerate per-axis
fallback (`np.repeat` replication for 1-point axes, `np.interp` otherwise).
The source's `ndim`/positivity `ValueError` guards are unreachable here:
the representation is 2-D and callers pass positive shapes. -/
def resizeWithInterpolationLin (origin : List (List ℚ)) (targetRows targetCols : ℕ) :
    List (List ℚ) :=
  let currentRows := origin.length
  let currentCols := (origin.head?.map List.length).getD 0
  if currentRows = targetRows ∧ currentCols = targetCols then origin
  else if 2 ≤ currentRows ∧ 2 ≤ currentCols then
    resizeRowsLin (resizeColsLin origin targetCols) targetRows
  else
    let r1 :=
      if currentCols ≠ targetCols then
        if currentCols = 1 then
          origin.map fun row => List.replicate targetCols (row.getD 0 0)
        else resizeColsLin origin targetCols
      else origin
    if r1.length ≠ targetRows then
      if r1.length = 1 then List.replicate targetRows (r1.getD 0 [])
      else resizeRowsLin r1 targetRows
    else r1

/-- Model of `HeatmapConverter.convert` at its default `LINEAR` method:
column-align head and body to the wider of the two, then stack head above
body (`_merge` is a plain vertical concatenation; its column-mismatch
`ValueError` is unreachable because both sides were just aligned to
`target_cols`). -/
def convertHeatmap (head body : List (List ℚ)) : List (List ℚ) :=
  let headRows := head.length
  let headCols := (head.head?.map List.length).getD 0
  let bodyRows := body.length
  let bodyCols := (body.head?.map List.length).getD 0
  let targetCols := max headCols bodyCols
  let headResized :=
    if headCols ≠ targetCols then resizeWithInterpolationLin head headRows targetCols else head
  let bodyResized :=
    if bodyCols ≠ targetCols then resizeWithInterpolationLin body bodyRows targetCols else body
  headResized ++ bodyResized

/-- Claim C6 as stated: for every correctly-shaped pair — a (2,3) head grid
and a (12,7) body grid — `convert` returns exactly the head grid stacked
above the body grid with every value unchanged. -/
def claimC6 : Prop :=
  ∀ head body : List (List ℚ),
    head.length = 2 → (∀ r ∈ head, r.length = 3) →
    body.length = 12 → (∀ r ∈ body, r.length = 7) →
    convertHeatmap head body = head ++ body

/-! ## Shared board state (`serial_communication.py`)

`BoardData` carries the parsed board tag and the channel→value map
(`data[f"UNO{i}_C{ch}"] = val`; since every key of one reading names the same
board, the map is indexed here by the channel number). The `receive_time`
wall-clock field is a side effect of parsing and carries no information for
the verified claims, so it is omitted from the record. -/

/-- One parsed reading: the board (index `i` stands for the tag `UNO{i}_`)
and its insertion-ordered channel→value map. -/
structure BoardData where
  board : Fin 7
  data : List (ℕ × Int)
  deriving DecidableEq, Repr

/-- Lookup in an insertion-ordered association list (Python `dict.get`). -/
def assocFind {κ α : Type} [DecidableEq κ] (m : List (κ × α)) (b : κ) : Option α :=
  match m with
  | [] => none
  | (k, v) :: rest => if k = b then some v else assocFind rest b

/-- Update of an insertion-ordered association list (Python `dict[k] = v`):
overwrite in place if the key exists, else append. -/
def assocSet {κ α : Type} [DecidableEq κ] (m : List (κ × α)) (b : κ) (v : α) : List (κ × α) :=
  match m with
  | [] => [(b, v)]
  | (k, w) :: rest => if k = b then (k, v) :: rest else (k, w) :: assocSet rest b v

/-- The mutex-guarded shared state of `SerialCommunication`: the
board→reading map and the revision counter (`boards`, `revision`). -/
structure SharedBoardState where
  boards : List (Fin 7 × BoardData)
  revision : ℕ
  deriving Repr

/-- One accepted reading, as published by `_serial_thread` under the
condition variable (lines 185–188): overwrite the entry for the reading's
board and increment the revision by one. -/
def acceptReading (st : SharedBoardState) (d : BoardData) : SharedBoardState :=
  { boards := assocSet st.boards d.board d, revision := st.revision + 1 }

/-- A sequence of accepted readings applied in order (the mutex serializes
concurrent writers, so every interleaving is one such sequence). -/
def runReadings (st : SharedBoardState) (ds : List BoardData) : SharedBoardState :=
  ds.foldl acceptReading st

/-- Last reading of a given board within a sequence, if any. -/
def lastReadingFor (ds : List BoardData) (b : Fin 7) : Option BoardData :=
  match ds with
  | [] => none
  | d :: rest =>
    match lastReadingFor rest b with
    | some e => some e
    | none => if d.board = b then some d else none

/-! ## Accumulation cache, thresholds and notifications (`pressure_logger.py`)

`PressureLogger` is modelled as a pure step function over an explicit state.
Wall-clock instants are `DateTime` records (calendar-day ordinal plus seconds
within the day); `datetime.now()` coincides with the observation timestamp,
as in the running system where `log` is called with the current time.
Remote calls are oracles: one `FetchOutcome` per `fetch_patient_with_device`
call and the value returned by `NotificationManager.send_notification`
(an `Option Bool`, so that the source's actual behavior — the method has no
`return` statement and always yields `None` — is representable alongside the
boolean result `_trigger_notifications` expects).

`pressure_logger.py` addresses its collaborators through a five-region
interface (`elbow`/`heel` unsplit, `accumulated_*` day totals); the checked-in
`day_cache.py`/`pressure_cache.py` modules have since moved to split
left/right fields. The model embeds the data shape `pressure_logger.py`
itself manipulates. -/

/-- A wall-clock instant: calendar-day ordinal and second within the day.
`date()` is the `day` field; `(t2 - t1).total_seconds()` is
`dtDiffSeconds t2 t1`. -/
structure DateTime where
  day : Int
  sec : Int
  deriving DecidableEq, Repr

/-- Difference `t2 - t1` in whole seconds. -/
def dtDiffSeconds (t2 t1 : DateTime) : Int :=
  (t2.day - t1.day) * 86400 + (t2.sec - t1.sec)

/-- Abstraction of `int(timestamp.strftime('%Y%m%d%H%M%S'))`: a deterministic
integer id derived from the instant (injective for in-range seconds, which is
all the id generator needs). -/
def timeIdOf (t : DateTime) : Int := t.day * 1000000 + t.sec

/-- Per-region second thresholds (`PartThreshold`). -/
structure PartThreshold where
  occiput : Int
  scapula : Int
  elbow : Int
  heel : Int
  hip : Int
  deriving DecidableEq, Repr

/-- Constructor default `PartThreshold(50, 50, 50, 50, 50)`. -/
def defaultThreshold : PartThreshold := ⟨50, 50, 50, 50, 50⟩

/-- The per-region minute settings `_threshold_from_patient` reads from a
patient record. -/
structure PatientConfig where
  occiput : Int
  scapula : Int
  elbow : Int
  heel : Int
  hip : Int
  deriving DecidableEq, Repr

/-- `_threshold_from_patient`: minutes to seconds, clamped at zero. -/
def thresholdFromPatient (p : PatientConfig) : PartThreshold :=
  ⟨max (p.occiput * 60) 0, max (p.scapula * 60) 0, max (p.elbow * 60) 0,
    max (p.heel * 60) 0, max (p.hip * 60) 0⟩

/-- The view of a detection result that `_log_locally` and
`_trigger_notifications` read: the posture class and one risk flag per
tracked region. -/
structure PostureObs where
  type : PostureType
  occiput : Bool
  scapula : Bool
  elbow : Bool
  heel : Bool
  hip : Bool
  deriving DecidableEq, Repr

/-- One posture-session entry (`PressureCache` as `pressure_logger.py`
builds it): id, timestamp, per-region cumulative seconds, posture class and
creation time. -/
structure PressureCache where
  id : Int
  time : DateTime
  occiput : Int
  scapula : Int
  elbow : Int
  heel : Int
  hip : Int
  posture : PostureType
  createdAt : DateTime
  deriving DecidableEq, Repr

/-- One per-calendar-day record (`DayCache` as `pressure_logger.py` builds
it). `id` stands for the `YYYYMMDD` integer derived from the date, modelled
by the day ordinal itself. -/
structure DayCache where
  id : Int
  date : Int
  accumulatedOcciput : Int
  accumulatedScapula : Int
  accumulatedElbow : Int
  accumulatedHeel : Int
  accumulatedHip : Int
  logs : List PressureCache
  isNew : Bool
  deriving DecidableEq, Repr

/-- The notification-sent flags (`_notification_sent` dictionary). -/
structure NotifSent where
  occiput : Bool
  scapula : Bool
  elbow : Bool
  heel : Bool
  hip : Bool
  deriving DecidableEq, Repr

/-- `_reset_notification_flags`: every flag false. -/
def notifAllFalse : NotifSent := ⟨false, false, false, false, false⟩

/-- The mutable attributes of `PressureLogger` that the verified logic reads
and writes. `store` models the `pressure_cache/daycache_YYYYMMDD.json` files as
a day-keyed association list; `lastDayCache` models the in-memory
`last_day_cache`. -/
structure LoggerState where
  threshold : PartThreshold
  notificationSent : NotifSent
  thresholdLoadedAt : Option DateTime
  hasPatientThreshold : Bool
  lastDayCache : Option DayCache
  store : List (Int × DayCache)
  deriving Repr

/-- Outcome of one `api.fetch_patient_with_device` call: raised, returned no
patient, or returned a patient configuration. -/
inductive FetchOutcome where
  | err
  | noPatient
  | patient (p : PatientConfig)
  deriving DecidableEq, Repr

/-- Cooldown gate of `_refresh_threshold_from_server` (lines 65–69): a
non-forced call within the refresh interval (60 s before a real patient
threshold has been seen, 600 s after) returns without fetching. -/
def cooldownSkip (force : Bool) (now : DateTime) (st : LoggerState) : Bool :=
  if force then false
  else
    match st.thresholdLoadedAt with
    | none => false
    | some t =>
      let interval : Int := if st.hasPatientThreshold then 600 else 60
      decide (dtDiffSeconds now t < interval)

/-- Threshold update from one fetch outcome
(`_refresh_threshold_from_server`, lines 71–109): an exception stamps the
load time only; no patient clears `_has_patient_threshold`; a patient
installs the converted thresholds, resetting the notification-sent flags
exactly when the values changed. -/
def applyFetchOutcome (now : DateTime) (fo : FetchOutcome)
    (st : LoggerState) : LoggerState :=
  match fo with
  | .err => { st with thresholdLoadedAt := some now }
  | .noPatient =>
    { st with hasPatientThreshold := false, thresholdLoadedAt := some now }
  | .patient p =>
    let newThreshold := thresholdFromPatient p
    if newThreshold ≠ st.threshold then
      { st with
        threshold := newThreshold
        notificationSent := notifAllFalse
        hasPatientThreshold := true
        thresholdLoadedAt := some now }
    else
      { st with
        threshold := newThreshold
        hasPatientThreshold := true
        thresholdLoadedAt := some now }

/-- Model of `_refresh_threshold_from_server`: the cooldown gate, then the
fetch. -/
def refreshThreshold (force : Bool) (now : DateTime) (fo : FetchOutcome)
    (st : LoggerState) : LoggerState :=
  if cooldownSkip force now st then st else applyFetchOutcome now fo st

/-- Python truthiness of the value `_trigger_notifications` names `sent`:
`None` and `False` are falsy. -/
def isTruthy (o : Option Bool) : Bool :=
  match o with
  | some b => b
  | none => false

/-- Model of `_trigger_notifications` (lines 111–152). Returns the updated
state and whether `send_notification` was invoked. `sendRes` is the value
returned by `NotificationManager.send_notification`; the checked-in manager
always returns `None`. -/
def triggerNotifications (st : LoggerState) (plog : Option PressureCache)
    (sendRes : Option Bool) : LoggerState × Bool :=
  match plog with
  | none => (st, false)
  | some log =>
    if st.hasPatientThreshold = false then (st, false)
    else
      let exOcciput : Bool := decide (st.threshold.occiput ≤ log.occiput)
      let exScapula : Bool := decide (st.threshold.scapula ≤ log.scapula)
      let exElbow : Bool := decide (st.threshold.elbow ≤ log.elbow)
      let exHeel : Bool := decide (st.threshold.heel ≤ log.heel)
      let exHip : Bool := decide (st.threshold.hip ≤ log.hip)
      let nOcciput := exOcciput && !st.notificationSent.occiput
      let nScapula := exScapula && !st.notificationSent.scapula
      let nElbow := exElbow && !st.notificationSent.elbow
      let nHeel := exHeel && !st.notificationSent.heel
      let nHip := exHip && !st.notificationSent.hip
      if !(nOcciput || nScapula || nElbow || nHeel || nHip) then (st, false)
      else if isTruthy sendRes = false then (st, true)
      else
        ({ st with
            notificationSent :=
              { occiput := st.notificationSent.occiput || nOcciput
                scapula := st.notificationSent.scapula || nScapula
                elbow := st.notificationSent.elbow || nElbow
                heel := st.notificationSent.heel || nHeel
                hip := st.notificationSent.hip || nHip } }, true)

/-- Index and value of the last element of a log list, when nonempty
(`len(logs)-1, logs[-1]`). -/
def lastEntry (l : List PressureCache) : Option (ℕ × PressureCache) :=
  match l.getLast? with
  | some e => some (l.length - 1, e)
  | none => none

/-- Model of `_open_daycache`: the persisted file when it exists, otherwise a
fresh empty `DayCache` marked `is_new` (file-read faults also yield the fresh
cache, so a missing store entry covers them). -/
def openDaycache (store : List (Int × DayCache)) (d : Int) : DayCache :=
  match assocFind store d with
  | some dc => dc
  | none => ⟨d, d, 0, 0, 0, 0, 0, [], true⟩

/-- Descending insertion into a sorted list. -/
def insertDesc (x : Int) (l : List Int) : List Int :=
  match l with
  | [] => [x]
  | y :: rest => if y ≤ x then x :: y :: rest else y :: insertDesc x rest

/-- Day keys sorted in reverse order — `sorted(filenames, reverse=True)`
over the cache files. -/
def sortDesc (l : List Int) : List Int := l.foldr insertDesc []

/-- The backward scan of `_get_last_pressure_log` (lines 220–233): walk the
day files newest-first, skip days after the probe date, return the first
cache at or before it with a nonempty log list. -/
def scanLastLog (store : List (Int × DayCache)) (keys : List Int) (d : Int) :
    Option (Int × DayCache) :=
  match keys with
  | [] => none
  | k :: rest =>
    if k ≤ d then
      let dc := openDaycache store k
      if dc.logs ≠ [] then some (k, dc) else scanLastLog store rest d
    else scanLastLog store rest d

/-- The file-backed part of `_get_last_pressure_log` (after the in-memory
cache missed): today's file first, then the backward scan; caches the opened
`DayCache` in memory only when it is today's. -/
def getLastFromFiles (st : LoggerState) (d today : Int) :
    LoggerState × Option (ℕ × PressureCache) :=
  if st.store.length = 0 then (st, none)
  else
    let viaScan :=
      match scanLastLog st.store (sortDesc (st.store.map Prod.fst)) d with
      | some (k, dc) =>
        ((if k = today then { st with lastDayCache := some dc } else st),
          lastEntry dc.logs)
      | none => (st, none)
    match assocFind st.store d with
    | some dc =>
      match lastEntry dc.logs with
      | some r =>
        ((if d = today then { st with lastDayCache := some dc } else st), some r)
      | none => viaScan
    | none => viaScan

/-- Model of `_get_last_pressure_log` (lines 190–234): the in-memory
`last_day_cache` when it is for the probe date and nonempty, else the file
paths. -/
def getLastPressureLog (st : LoggerState) (d today : Int) :
    LoggerState × Option (ℕ × PressureCache) :=
  match st.lastDayCache with
  | some dc =>
    if dc.date = d then
      match lastEntry dc.logs with
      | some r => (st, some r)
      | none => getLastFromFiles st d today
    else getLastFromFiles st d today
  | none => getLastFromFiles st d today

/-- Model of `_save_daycache`: refresh the in-memory cache only for today's
data, then persist the file. -/
def saveDaycache (st : LoggerState) (dc : DayCache) (today : Int) : LoggerState :=
  { st with
    lastDayCache := if dc.date = today then some dc else st.lastDayCache
    store := assocSet st.store dc.date dc }

/-- Fuel-bounded candidate bump of `_generate_pressure_log_id`'s while loop;
fuel `existing.length + 1` always suffices because at most `existing.length`
candidates can collide. -/
def bumpId (existing : List Int) : ℕ → Int → Int
  | 0, c => c
  | fuel + 1, c => if existing.contains c then bumpId existing fuel (c + 1) else c

/-- Model of `_generate_pressure_log_id` (lines 347–355). -/
def generatePressureLogId (t : DateTime) (existing : List Int) : Int :=
  bumpId existing (existing.length + 1) (timeIdOf t)

/-- The remote-interaction outcomes one `_log_locally` call can consume: the
two possible `fetch_patient_with_device` calls (the cooldown-gated one and
the forced day-rollover one) and the `send_notification` return value. -/
structure StepOracle where
  fo1 : FetchOutcome
  fo2 : FetchOutcome
  sendRes : Option Bool
  deriving Repr

/-- Everything one `_log_locally` call produced: the new logger state, the
returned `(day_cache, pressure_log, needs_creation)` triple, plus observation
instrumentation — whether `send_notification` was invoked, whether the
day-rollover branch ran (it calls the forced refresh), and the
notification-sent flags as they stood right after that branch (before
`_trigger_notifications` could set them again). -/
structure StepResult where
  state : LoggerState
  dayCache : DayCache
  plog : PressureCache
  needsCreation : Bool
  notified : Bool
  dayChanged : Bool
  flagsBeforeTrigger : NotifSent
  deriving Repr

/-- Model of `_log_locally` (lines 236–320), in source order: cooldown
refresh, last-entry lookup, open today's cache, reuse-or-new-session entry,
per-flag credit of the elapsed seconds, day-rollover handling (forced refresh
and flag reset), day totals, append-or-overwrite, persist, notifications. -/
def logLocally (st0 : LoggerState) (o : StepOracle) (time : DateTime)
    (posture : PostureObs) : StepResult :=
  let st1 := refreshThreshold false time o.fo1 st0
  let lookRes := getLastPressureLog st1 time.day time.day
  let st2 := lookRes.1
  let lastRes := lookRes.2
  let dayCache := openDaycache st2.store time.day
  let reuseInfo : Option (ℕ × PressureCache) :=
    match lastRes with
    | some (idx, last) =>
      if last.time.day = time.day ∧ last.posture = posture.type then some (idx, last)
      else none
    | none => none
  let accumulated : Int :=
    match reuseInfo with
    | some (_, last) => dtDiffSeconds time last.time
    | none => 0
  let plogBase : PressureCache :=
    match reuseInfo with
    | some (_, last) =>
      ⟨last.id, time, last.occiput, last.scapula, last.elbow, last.heel, last.hip,
        posture.type, last.createdAt⟩
    | none =>
      ⟨generatePressureLogId time (dayCache.logs.map PressureCache.id), time,
        0, 0, 0, 0, 0, posture.type, time⟩
  let plog : PressureCache :=
    { plogBase with
      occiput := plogBase.occiput + (if posture.occiput then accumulated else 0)
      scapula := plogBase.scapula + (if posture.scapula then accumulated else 0)
      elbow := plogBase.elbow + (if posture.elbow then accumulated else 0)
      heel := plogBase.heel + (if posture.heel then accumulated else 0)
      hip := plogBase.hip + (if posture.hip then accumulated else 0) }
  let dayChanged : Bool :=
    match lastRes with
    | none => true
    | some (_, last) => decide (last.time.day ≠ time.day)
  let st3 :=
    if dayChanged then
      { refreshThreshold true time o.fo2 st2 with notificationSent := notifAllFalse }
    else st2
  let dayCache2 :=
    if accumulated > 0 ∧ dayChanged = false then
      { dayCache with
        accumulatedOcciput :=
          dayCache.accumulatedOcciput + (if posture.occiput then accumulated else 0)
        accumulatedScapula :=
          dayCache.accumulatedScapula + (if posture.scapula then accumulated else 0)
        accumulatedElbow :=
          dayCache.accumulatedElbow + (if posture.elbow then accumulated else 0)
        accumulatedHeel :=
          dayCache.accumulatedHeel + (if posture.heel then accumulated else 0)
        accumulatedHip :=
          dayCache.accumulatedHip + (if posture.hip then accumulated else 0) }
    else dayCache
  let dayCache3 :=
    if reuseInfo.isNone ∨ dayChanged = true then
      { dayCache2 with logs := dayCache2.logs ++ [plog] }
    else
      match reuseInfo with
      | some (idx, _) => { dayCache2 with logs := dayCache2.logs.set idx plog }
      | none => dayCache2
  let st4 := saveDaycache st3 dayCache3 time.day
  let notifRes := triggerNotifications st4 (some plog) o.sendRes
  { state := notifRes.1
    dayCache := dayCache3
    plog := plog
    needsCreation := reuseInfo.isNone || dayChanged
    notified := notifRes.2
    dayChanged := dayChanged
    flagsBeforeTrigger := st3.notificationSent }

/-- A run of consecutive observations through `_log_locally`, collecting
every step's result. -/
def runObs (st : LoggerState) :
    List (StepOracle × DateTime × PostureObs) → LoggerState × List StepResult
  | [] => (st, [])
  | (o, t, p) :: rest =>
    let r := logLocally st o t p
    let tail := runObs r.state rest
    (tail.1, r :: tail.2)

/-- State after `k` observations of an unbroken same-day same-posture stream:
observation `j` (0-based) happens at second `t0 + Δt * j` of day `d`. -/
def sessionState (st0 : LoggerState) (os : ℕ → StepOracle) (d t0 Δt : Int)
    (p : PostureObs) : ℕ → LoggerState
  | 0 => st0
  | k + 1 =>
    (logLocally (sessionState st0 os d t0 Δt p k) (os k)
      ⟨d, t0 + Δt * (k : Int)⟩ p).state

/-- Result of the `k`-th (0-based) observation of the stream. -/
def sessionStep (st0 : LoggerState) (os : ℕ → StepOracle) (d t0 Δt : Int)
    (p : PostureObs) (k : ℕ) : StepResult :=
  logLocally (sessionState st0 os d t0 Δt p k) (os k) ⟨d, t0 + Δt * (k : Int)⟩ p

/-- The session entry the stream should have produced after `k + 1`
observations: timestamp of the latest observation, `k * Δt` seconds on every
flagged region, zero elsewhere. -/
def sessionEntry (d t0 Δt : Int) (p : PostureObs) (k : ℕ) : PressureCache :=
  ⟨timeIdOf ⟨d, t0⟩, ⟨d, t0 + Δt * (k : Int)⟩,
    if p.occiput then (k : Int) * Δt else 0,
    if p.scapula then (k : Int) * Δt else 0,
    if p.elbow then (k : Int) * Δt else 0,
    if p.heel then (k : Int) * Δt else 0,
    if p.hip then (k : Int) * Δt else 0,
    p.type, ⟨d, t0⟩⟩

/-- The day cache the stream should have produced after `k + 1`
observations. -/
def sessionCache (d t0 Δt : Int) (p : PostureObs) (k : ℕ) : DayCache :=
  ⟨d, d,
    if p.occiput then (k : Int) * Δt else 0,
    if p.scapula then (k : Int) * Δt else 0,
    if p.elbow then (k : Int) * Δt else 0,
    if p.heel then (k : Int) * Δt else 0,
    if p.hip then (k : Int) * Δt else 0,
    [sessionEntry d t0 Δt p k], true⟩

/-! ## Remote sync (`_upload_to_server`)

The store calls are oracles. `server_api.py` signals failure in two shapes:
a falsy result (`None`) or the very payload object echoed back (`response is
payload`, the identity sentinel); success returns a hydrated record. A call
that raises inside `_upload_to_server`'s `try` makes the function return
`False` without further calls — equivalent, for the verified properties, to
the falsy outcome, so the oracle carries three cases. -/

/-- Observable outcome of one remote create/update call. -/
inductive ApiResp where
  | noData
  | echo
  | fresh (id : Int)
  deriving DecidableEq, Repr

/-- Which remote calls `_upload_to_server` can make, for the call trace. -/
inductive ApiCall where
  | createDay
  | updateDay
  | createPressure
  | updatePressure
  deriving DecidableEq, Repr

/-- Outcomes the store will hand to each call of one upload attempt. -/
structure UploadOracle where
  createDay : ApiResp
  updateDay : ApiResp
  createPressure : ApiResp
  updatePressure : ApiResp
  deriving Repr

/-- Result of one `_upload_to_server` call: the returned boolean, the ordered
trace of remote calls made, and the day cache as possibly mutated
(`is_new` cleared after a successful creation). -/
structure UploadResult where
  ok : Bool
  calls : List ApiCall
  daycache : DayCache
  deriving Repr

/-- Day-log phase outcome: `created_daylog` flag, the hydrated day id, and
the calls made so far — or failure. -/
def uploadDayPhase (dc : DayCache) (o : UploadOracle) :
    (Bool × Int × List ApiCall) ⊕ List ApiCall :=
  if dc.isNew then
    match o.createDay with
    | .fresh i => Sum.inl (true, i, [ApiCall.createDay])
    | _ => Sum.inr [ApiCall.createDay]
  else
    match o.updateDay with
    | .noData => Sum.inr [ApiCall.updateDay]
    | .fresh i => Sum.inl (false, i, [ApiCall.updateDay])
    | .echo =>
      match o.createDay with
      | .fresh i => Sum.inl (true, i, [ApiCall.updateDay, ApiCall.createDay])
      | _ => Sum.inr [ApiCall.updateDay, ApiCall.createDay]

/-- Model of `_upload_to_server` (lines 357–413): refuse empty caches;
create the day log when `is_new`, else update with fallback-to-create on the
echo sentinel; clear `is_new` after a successful creation; then create or
update the pressure log, updates falling back to create on a falsy or echoed
response; report success only when the pressure log round-tripped. -/
def uploadToServer (dc : DayCache) (createdNewLog : Bool) (o : UploadOracle) :
    UploadResult :=
  if dc.logs = [] then ⟨false, [], dc⟩
  else
    match uploadDayPhase dc o with
    | Sum.inr calls => ⟨false, calls, dc⟩
    | Sum.inl (createdDaylog, _dayId, calls) =>
      let dc2 := if createdDaylog && dc.isNew then { dc with isNew := false } else dc
      let pressurePhase : ApiResp × List ApiCall :=
        if createdNewLog then (o.createPressure, calls ++ [ApiCall.createPressure])
        else
          match o.updatePressure with
          | .fresh i => (ApiResp.fresh i, calls ++ [ApiCall.updatePressure])
          | _ =>
            (o.createPressure, calls ++ [ApiCall.updatePressure, ApiCall.createPressure])
      match pressurePhase with
      | (.fresh _, allCalls) => ⟨true, allCalls, dc2⟩
      | (_, allCalls) => ⟨false, allCalls, dc2⟩

/-- The day-log phase succeeded: the remote store ended up holding the day
log, via a hydrated create (for `is_new` caches) or a hydrated update or its
echo-fallback create. -/
def daylogUpserted (dc : DayCache) (o : UploadOracle) : Prop :=
  if dc.isNew then ∃ i, o.createDay = ApiResp.fresh i
  else
    (∃ i, o.updateDay = ApiResp.fresh i) ∨
      (o.updateDay = ApiResp.echo ∧ ∃ i, o.createDay = ApiResp.fresh i)

/-! ## The checked-in collaborator shapes and the crashing call sites

`pressure_logger.py` addresses its collaborators through the five-region
interface modelled above, but the checked-in collaborator classes moved to
split left/right fields. Where `pressure_logger.py` reads an attribute or
calls a constructor the checked-in class does not provide, the model below
returns `Except.error`; the model above remains as the data shape
`pressure_logger.py` itself was written against and carries the
threshold-guard analysis, whose paths touch none of the broken members. -/

/-- One pressure-session entry in the checked-in shape
(`pressure_cache.py`, `PressureCache.__init__` lines 8–34). -/
structure PressureCacheSrc where
  id : Int
  time : DateTime
  createdAt : DateTime
  occiput : Int
  scapula : Int
  rightElbow : Int
  leftElbow : Int
  hip : Int
  rightHeel : Int
  leftHeel : Int
  posture : PostureType
  postureChangeRequired : Bool
  deriving DecidableEq, Repr

/-- One per-day record in the checked-in shape (`day_cache.py` lines 4–29). -/
structure DayCacheSrc where
  id : Int
  date : Int
  totalOcciput : Int
  totalScapula : Int
  totalRightElbow : Int
  totalLeftElbow : Int
  totalHip : Int
  totalRightHeel : Int
  totalLeftHeel : Int
  logs : List PressureCacheSrc
  isNew : Bool
  deriving DecidableEq, Repr

/-- `PressureLogger`'s mutable attributes, with the persisted day caches and
the in-memory `last_day_cache` in the checked-in shape. -/
structure LoggerStateSrc where
  threshold : PartThreshold
  notificationSent : NotifSent
  thresholdLoadedAt : Option DateTime
  hasPatientThreshold : Bool
  lastDayCache : Option DayCacheSrc
  store : List (Int × DayCacheSrc)
  deriving DecidableEq, Repr

/-- Cooldown gate of `_refresh_threshold_from_server` over the checked-in
state (lines 65–69). -/
def cooldownSkipSrc (force : Bool) (now : DateTime) (st : LoggerStateSrc) : Bool :=
  if force then false
  else
    match st.thresholdLoadedAt with
    | none => false
    | some t =>
      let interval : Int := if st.hasPatientThreshold then 600 else 60
      decide (dtDiffSeconds now t < interval)

/-- `_refresh_threshold_from_server` (lines 64–109) against the checked-in
`Patient`: an errored fetch stamps the load time, a missing patient clears
the flag — and a FOUND patient raises, because `_threshold_from_patient`
(line 57) reads `patient.occiput` while `Patient` (`models/patient.py`)
defines only `occiput_threshold` and split elbow/heel names. The raise is
outside the fetch `try` (lines 71–76) and happens at line 85, before
`self.threshold`, the flags or the load time are written, so the state is
unchanged at the raise. -/
def refreshThresholdSrc (force : Bool) (now : DateTime) (fo : FetchOutcome)
    (st : LoggerStateSrc) : Except PyErr LoggerStateSrc :=
  if cooldownSkipSrc force now st then Except.ok st
  else
    match fo with
    | .err => Except.ok { st with thresholdLoadedAt := some now }
    | .noPatient =>
      Except.ok { st with hasPatientThreshold := false, thresholdLoadedAt := some now }
    | .patient _ => Except.error PyErr.attributeError

/-- `len(logs)-1, logs[-1]` over checked-in entries. -/
def lastEntrySrc (l : List PressureCacheSrc) : Option (ℕ × PressureCacheSrc) :=
  match l.getLast? with
  | some e => some (l.length - 1, e)
  | none => none

/-- `_open_daycache` (lines 164–175) against the checked-in `DayCache`: an
existing file loads via `from_dict` (the split names round-trip), but the
fresh-cache constructor call at line 175 —
`DayCache(int(...), date, 0, 0, 0, 0, 0, [], True)` — passes nine positional
arguments against ten required (five totals, with `[]` and `True` bound to
the heel totals and `logs` missing), so every new day raises `TypeError`. -/
def openDaycacheSrc (store : List (Int × DayCacheSrc)) (d : Int) :
    Except PyErr DayCacheSrc :=
  match assocFind store d with
  | some dc => Except.ok dc
  | none => Except.error PyErr.typeError

/-- The backward file scan of `_get_last_pressure_log` (lines 220–233) over
the checked-in store; every scanned key names an existing file, so only the
working `from_dict` path of `_open_daycache` runs. -/
def scanLastLogSrc (store : List (Int × DayCacheSrc)) (keys : List Int) (d : Int) :
    Option (Int × DayCacheSrc) :=
  match keys with
  | [] => none
  | k :: rest =>
    if k ≤ d then
      match assocFind store k with
      | some dc => if dc.logs ≠ [] then some (k, dc) else scanLastLogSrc store rest d
      | none => scanLastLogSrc store rest d
    else scanLastLogSrc store rest d

/-- The file-backed part of `_get_last_pressure_log` over the checked-in
store. -/
def getLastFromFilesSrc (st : LoggerStateSrc) (d today : Int) :
    LoggerStateSrc × Option (ℕ × PressureCacheSrc) :=
  if st.store.length = 0 then (st, none)
  else
    let viaScan :=
      match scanLastLogSrc st.store (sortDesc (st.store.map Prod.fst)) d with
      | some (k, dc) =>
        ((if k = today then { st with lastDayCache := some dc } else st),
          lastEntrySrc dc.logs)
      | none => (st, none)
    match assocFind st.store d with
    | some dc =>
      match lastEntrySrc dc.logs with
      | some r =>
        ((if d = today then { st with lastDayCache := some dc } else st), some r)
      | none => viaScan
    | none => viaScan

/-- `_get_last_pressure_log` (lines 190–234) over the checked-in store. -/
def getLastPressureLogSrc (st : LoggerStateSrc) (d today : Int) :
    LoggerStateSrc × Option (ℕ × PressureCacheSrc) :=
  match st.lastDayCache with
  | some dc =>
    if dc.date = d then
      match lastEntrySrc dc.logs with
      | some r => (st, some r)
      | none => getLastFromFilesSrc st d today
    else getLastFromFilesSrc st d today
  | none => getLastFromFilesSrc st d today

/-- Everything one `_log_locally` call against the checked-in classes can
leave behind: the logger attributes as of the return or the raise, the
returned triple or the exception, how often `send_notification` ran
(line 318 → line 130) and whether `_save_daycache` ran (line 317). -/
structure LogLocalSrcResult where
  state : LoggerStateSrc
  result : Except PyErr (DayCacheSrc × PressureCacheSrc × Bool)
  notifyCalls : ℕ
  saved : Bool
  deriving Repr

/-- `_log_locally` (lines 236–320) against the checked-in collaborator
classes, in source order. Every control path raises before line 294 (the
day-rollover block with the forced refresh and the flag reset), line 317
(`_save_daycache`) and line 318 (`_trigger_notifications`):

* the cooldown-gated refresh (line 239) raises `AttributeError` when the
  fetch finds a patient (see `refreshThresholdSrc`);
* otherwise, when today's day cache is not on disk, `_open_daycache`
  (line 246) raises `TypeError` in the fresh `DayCache` constructor call;
* otherwise, when the last entry continues the session (same day, same
  posture), the reuse constructor call (lines 255–265) reads
  `last_log.elbow`, an attribute the split `PressureCache` does not
  define — `AttributeError`;
* otherwise the new-session constructor call `PressureCache(id, time,
  0, 0, 0, 0, 0, posture.type, created_at=time)` (lines 268–278) binds its
  eight positional arguments through `left_heel` and leaves `hip` and
  `posture` missing — `TypeError`. -/
def logLocallySrc (st0 : LoggerStateSrc) (o : StepOracle) (time : DateTime)
    (posture : PostureDetectionResult) : LogLocalSrcResult :=
  match refreshThresholdSrc false time o.fo1 st0 with
  | Except.error e => ⟨st0, Except.error e, 0, false⟩
  | Except.ok st1 =>
    let lookRes := getLastPressureLogSrc st1 time.day time.day
    let st2 := lookRes.1
    match openDaycacheSrc st2.store time.day with
    | Except.error e => ⟨st2, Except.error e, 0, false⟩
    | Except.ok _dayCache =>
      match lookRes.2 with
      | some (_idx, last) =>
        if last.time.day = time.day ∧ last.posture = posture.type then
          ⟨st2, Except.error PyErr.attributeError, 0, false⟩
        else
          ⟨st2, Except.error PyErr.typeError, 0, false⟩
      | none => ⟨st2, Except.error PyErr.typeError, 0, false⟩

/-- `NotificationManager.send_notification`
(`notification_manager.py` lines 44–60): the method logs and performs the
Firebase send, but no `return` statement follows, so every call evaluates
to `None`. -/
def sendNotificationSrc (deviceId : Int)
    (exOcciput exScapula exElbow exHeel exHip : Bool) : Option Bool :=
  none

/-- `_convert_to_daylog` (lines 322–332): the first constructor argument
evaluated is `day_cache.accumulated_occiput`, an attribute the checked-in
`DayCache` (`total_*` fields) does not define, so the call raises
`AttributeError` for every input and never yields a `DayLog` — the success
type is `Empty` because no value is ever produced. -/
def convertToDaylog (dc : DayCacheSrc) : Except PyErr Empty :=
  Except.error PyErr.attributeError

/-- The observations one `_upload_to_server` call against the checked-in
classes can produce: the returned boolean and the remote calls made. -/
structure UploadSrcResult where
  ok : Bool
  calls : List ApiCall
  deriving DecidableEq, Repr

/-- `_upload_to_server` (lines 357–413) against the checked-in `DayCache`:
the whole body runs inside `try … except Exception: return False`
(lines 360, 409–411). An empty log list returns `False` at line 363;
otherwise `_convert_to_daylog` (line 365) raises before `create_daylog` or
`update_daylog` can be reached and the handler returns `False` — no remote
call is ever made, whatever the store would have answered. -/
def uploadToServerSrc (dc : DayCacheSrc) (o : UploadOracle) : UploadSrcResult :=
  if dc.logs = [] then ⟨false, []⟩
  else
    match convertToDaylog dc with
    | Except.error _ => ⟨false, []⟩
    | Except.ok x => x.elim

/-! ## Serial line parsing (`SerialCommunication._parse`)

Lines are `List Char`. The two accepted formats are the source's regexes,
transliterated as deterministic scanners with `re` leftmost-match semantics:

* Form A — `\b(UNO[0-6]_)C\d+\s*[:=]\s*-?\d+\b` (IGNORECASE) locates the
  governing board, then `({board}C(\d+))\s*[:=]\s*(-?\d+)` (IGNORECASE, no
  word boundaries) collects that board's channel/value pairs.
* Form B — `\[\s*(UNO[0-6])\s*\]` (IGNORECASE) locates the bracket tag,
  `^\s*\[\s*{board}\s*\]\s*` strips it when it is the line's prefix, and
  `\bC\s*(\d+)\s*[:=]\s*(-?\d+)\b` (no IGNORECASE flag in the source, so
  only a capital `C`) collects pairs.

Character classes are the ASCII cores of `\w`, `\s` and `\d`; serial input
is ASCII. Backtracking never changes the outcome for these patterns (after a
greedy digit run every shorter split fails on the digit that follows), so
greedy scanning is exact. -/

/-- ASCII `\w`. -/
def isWordChar (c : Char) : Bool := c.isAlphanum || c = '_'

/-- ASCII `\s`. -/
def isSpaceChar (c : Char) : Bool :=
  c = ' ' || c = '\t' || c = '\n' || c = '\r' || c = '\x0b' || c = '\x0c'

/-- ASCII `\d`. -/
def isDigitChar (c : Char) : Bool := c.isDigit

/-- Numeric value of a digit character. -/
def digitVal (c : Char) : ℕ := c.toNat - 48

/-- Python `str.strip()`. -/
def stripChars (cs : List Char) : List Char :=
  ((cs.dropWhile isSpaceChar).reverse.dropWhile isSpaceChar).reverse

/-- Python `int()` over a digit run. -/
def readNat (ds : List Char) : ℕ := ds.foldl (fun acc c => 10 * acc + digitVal c) 0

/-- Case-insensitive `UNO[0-6]` at the head of the input; yields the board
index and the remainder. -/
def matchUno (cs : List Char) : Option (Fin 7 × List Char) :=
  match cs with
  | u :: n :: o :: d :: rest =>
    if (u = 'U' || u = 'u') && (n = 'N' || n = 'n') && (o = 'O' || o = 'o') &&
        isDigitChar d && digitVal d ≤ 6 then
      if h : digitVal d < 7 then some (⟨digitVal d, h⟩, rest) else none
    else none
  | _ => none

/-- Optional minus sign: consumed flag and remainder (`-?`). -/
def matchNeg (cs : List Char) : Bool × List Char :=
  match cs with
  | c :: t => if c = '-' then (true, t) else (false, c :: t)
  | [] => (false, [])

/-- Word-boundary test after a match that ends in a digit: end of input or a
non-word character next (`\b`). -/
def boundaryOk (cs : List Char) : Bool :=
  match cs with
  | [] => true
  | c :: _ => !isWordChar c

/-- The shared separator/value tail of every channel pattern:
`\s*[:=]\s*(-?\d+)`. Returns the signed value and the remainder after its
digits. -/
def scanSepValue (cs : List Char) : Option (Int × List Char) :=
  let r5 := cs.dropWhile isSpaceChar
  match r5 with
  | s :: r6 =>
    if s = ':' || s = '=' then
      let r7 := r6.dropWhile isSpaceChar
      let negRes := matchNeg r7
      let vs := negRes.2.takeWhile isDigitChar
      let r9 := negRes.2.dropWhile isDigitChar
      if vs = [] then none
      else some ((if negRes.1 then -(readNat vs : Int) else (readNat vs : Int)), r9)
    else none
  | [] => none

/-- The Form-A search pattern matched at the head of the input (word
boundary before the position is the caller's charge): `UNO[0-6]_C\d+` then
`\s*[:=]\s*-?\d+\b`. Returns the board on success. -/
def matchFormAAt (cs : List Char) : Option (Fin 7) :=
  match matchUno cs with
  | none => none
  | some (i, r1) =>
    match r1 with
    | '_' :: c :: r3 =>
      if c = 'C' || c = 'c' then
        let ds := r3.takeWhile isDigitChar
        let r4 := r3.dropWhile isDigitChar
        if ds = [] then none
        else
          match scanSepValue r4 with
          | some (_, r9) => if boundaryOk r9 then some i else none
          | none => none
      else none
    | _ => none

/-- `re.search` of the Form-A pattern: leftmost position whose preceding
character is not a word character (the leading `\b`; the pattern itself
starts with a word character) and where the pattern matches. -/
def searchFormA (prevWord : Bool) (cs : List Char) : Option (Fin 7) :=
  match cs with
  | [] => none
  | c :: rest =>
    if prevWord = false then
      match matchFormAAt (c :: rest) with
      | some i => some i
      | none => searchFormA (isWordChar c) rest
    else searchFormA (isWordChar c) rest

/-- One match of the Form-A collection pattern
`({board}C(\d+))\s*[:=]\s*(-?\d+)` at the head of the input: channel, value
and the remainder after the match. -/
def matchPairA (i : Fin 7) (cs : List Char) : Option (ℕ × Int × List Char) :=
  match matchUno cs with
  | none => none
  | some (j, r1) =>
    if j = i then
      match r1 with
      | '_' :: c :: r3 =>
        if c = 'C' || c = 'c' then
          let ds := r3.takeWhile isDigitChar
          let r4 := r3.dropWhile isDigitChar
          if ds = [] then none
          else
            match scanSepValue r4 with
            | some (v, r9) => some (readNat ds, v, r9)
            | none => none
        else none
      | _ => none
    else none

/-- `re.finditer` of the Form-A collection pattern: non-overlapping leftmost
matches, scanning resuming after each match. Fuel-bounded (the input length
always suffices: every step consumes at least one character). -/
def findPairsAAux (i : Fin 7) : ℕ → List Char → List (ℕ × Int)
  | 0, _ => []
  | _, [] => []
  | fuel + 1, c :: rest =>
    match matchPairA i (c :: rest) with
    | some (ch, v, r9) => (ch, v) :: findPairsAAux i fuel r9
    | none => findPairsAAux i fuel rest

/-- All Form-A channel/value pairs of the governing board, in match order. -/
def findPairsA (i : Fin 7) (cs : List Char) : List (ℕ × Int) :=
  findPairsAAux i cs.length cs

/-- The bracket-tag pattern `\[\s*(UNO[0-6])\s*\]` matched at the head of
the input. -/
def matchBracketAt (cs : List Char) : Option (Fin 7) :=
  match cs with
  | c0 :: r1 =>
    if c0 = '[' then
      let r2 := r1.dropWhile isSpaceChar
      match matchUno r2 with
      | some (i, r3) =>
        let r4 := r3.dropWhile isSpaceChar
        match r4 with
        | c1 :: _ => if c1 = ']' then some i else none
        | [] => none
      | none => none
    else none
  | [] => none

/-- `re.search` of the bracket-tag pattern. -/
def searchBracket (cs : List Char) : Option (Fin 7) :=
  match cs with
  | [] => none
  | c :: rest =>
    match matchBracketAt (c :: rest) with
    | some i => some i
    | none => searchBracket rest

/-- `re.sub(r'^\s*\[\s*{board}\s*\]\s*', '', line)`: remove the bracket tag
together with surrounding whitespace when it prefixes the line, else leave
the line unchanged (`^` anchors the pattern, so at most one removal). -/
def subBracketTag (i : Fin 7) (cs : List Char) : List Char :=
  let r0 := cs.dropWhile isSpaceChar
  match r0 with
  | c0 :: r1 =>
    if c0 = '[' then
      let r2 := r1.dropWhile isSpaceChar
      match matchUno r2 with
      | some (j, r3) =>
        if j = i then
          let r4 := r3.dropWhile isSpaceChar
          match r4 with
          | c1 :: r5 => if c1 = ']' then r5.dropWhile isSpaceChar else cs
          | [] => cs
        else cs
      | none => cs
    else cs
  | [] => cs

/-- One match of the Form-B collection pattern
`\bC\s*(\d+)\s*[:=]\s*(-?\d+)\b` at the head of the input (the leading `\b`
is the caller's charge; the `C` is case-sensitive because the source compiles
this pattern without IGNORECASE). -/
def matchPairBr (cs : List Char) : Option (ℕ × Int × List Char) :=
  match cs with
  | c0 :: r1 =>
    if c0 = 'C' then
      let r2 := r1.dropWhile isSpaceChar
      let ds := r2.takeWhile isDigitChar
      let r3 := r2.dropWhile isDigitChar
      if ds = [] then none
      else
        match scanSepValue r3 with
        | some (v, r8) => if boundaryOk r8 then some (readNat ds, v, r8) else none
        | none => none
    else none
  | [] => none

/-- `re.finditer` of the Form-B collection pattern, tracking the word
boundary across consumed matches (a match ends in a digit, a word
character). -/
def findPairsBrAux : ℕ → Bool → List Char → List (ℕ × Int)
  | 0, _, _ => []
  | _, _, [] => []
  | fuel + 1, prevWord, c :: rest =>
    if prevWord = false then
      match matchPairBr (c :: rest) with
      | some (ch, v, r) => (ch, v) :: findPairsBrAux fuel true r
      | none => findPairsBrAux fuel (isWordChar c) rest
    else findPairsBrAux fuel (isWordChar c) rest

/-- All Form-B channel/value pairs, in match order. -/
def findPairsBr (cs : List Char) : List (ℕ × Int) :=
  findPairsBrAux cs.length false cs

/-- The channel map: pairs inserted in match order into a Python dict
(later values overwrite earlier ones for the same channel). -/
def buildDict (pairs : List (ℕ × Int)) : List (ℕ × Int) :=
  pairs.foldl (fun m p => assocSet m p.1 p.2) []

/-- Model of `SerialCommunication._parse` (lines 121–155): strip, reject the
empty line, try Form A, then the bracket form, else no reading. -/
def parseLine (cs : List Char) : Option BoardData :=
  let line := stripChars cs
  if line = [] then none
  else
    match searchFormA false line with
    | some i => some ⟨i, buildDict (findPairsA i line)⟩
    | none =>
      match searchBracket line with
      | some i => some ⟨i, buildDict (findPairsBr (subBracketTag i line))⟩
      | none => none

/-! ### Rendered wire-protocol lines

`ChanTok` renders one channel token; rendered lines quantify the positive
half of the parsing claims over every well-formed Form-A / Form-B line with
single spaces between tokens and arbitrary `\s*` padding around each
separator. -/

/-- Decimal digits of a natural number, most significant first. -/
def natChars (n : ℕ) : List Char :=
  if h : n < 10 then [Char.ofNat (48 + n)]
  else natChars (n / 10) ++ [Char.ofNat (48 + n % 10)]
  termination_by n
  decreasing_by exact Nat.div_lt_self (by omega) (by omega)

/-- Python `str` of an integer. -/
def intChars (v : Int) : List Char :=
  if v < 0 then '-' :: natChars v.natAbs else natChars v.toNat

/-- One channel token: channel index, separator shape (`:` or `=`) with its
whitespace padding, and the signed value. -/
structure ChanTok where
  ch : ℕ
  preSpaces : ℕ
  sepColon : Bool
  postSpaces : ℕ
  val : Int
  deriving Repr

/-- The separator character of a token. -/
def sepChar (b : Bool) : Char := if b then ':' else '='

/-- The board tag `UNO{i}_`. -/
def boardChars (i : Fin 7) : List Char :=
  ['U', 'N', 'O', Char.ofNat (48 + i.val), '_']

/-- Rendered Form-A token `UNO{i}_C{ch}{sp}{sep}{sp}{val}`. -/
def renderTokA (i : Fin 7) (t : ChanTok) : List Char :=
  boardChars i ++ 'C' :: natChars t.ch ++ List.replicate t.preSpaces ' ' ++
    sepChar t.sepColon :: List.replicate t.postSpaces ' ' ++ intChars t.val

/-- Rendered Form-B token `C{ch}{sp}{sep}{sp}{val}`. -/
def renderTokB (t : ChanTok) : List Char :=
  'C' :: natChars t.ch ++ List.replicate t.preSpaces ' ' ++
    sepChar t.sepColon :: List.replicate t.postSpaces ' ' ++ intChars t.val

/-- Single-space join. -/
def joinSpace : List (List Char) → List Char
  | [] => []
  | [x] => x
  | x :: rest => x ++ ' ' :: joinSpace rest

/-- A whole Form-A line: one or more tokens of one board. -/
def renderLineA (i : Fin 7) (toks : List ChanTok) : List Char :=
  joinSpace (toks.map (renderTokA i))

/-- A whole Form-B line: the bracket tag, then the tokens. -/
def renderLineB (i : Fin 7) (toks : List ChanTok) : List Char :=
  '[' :: 'U' :: 'N' :: 'O' :: Char.ofNat (48 + i.val) :: ']' ::
    (match toks with
     | [] => []
     | _ => ' ' :: joinSpace (toks.map renderTokB))

/-- The channel/value pairs a token list writes. -/
def tokPairs (toks : List ChanTok) : List (ℕ × Int) :=
  toks.map fun t => (t.ch, t.val)

/-! ### Specification-side wire grammar

The claim about `_parse` compares its behavior against the wire protocol as
the specification words it (one or more tokens; Form B is a bracket tag
followed by one or more tokens). These whole-line grammar checkers are the
claim-side definitions, written from the specification's wording and
deliberately independent of the search/finditer structure of the source. -/

/-- One spec Form-A token `UNO{n}_Ck (:|=) v` at the head of the input
(case-insensitive tag, `\s*` around the separator). -/
def specTokenA (cs : List Char) : Option ((Fin 7 × ℕ × Int) × List Char) :=
  match matchUno cs with
  | none => none
  | some (i, r1) =>
    match r1 with
    | '_' :: c :: r2 =>
      if c = 'C' || c = 'c' then
        let ds := r2.takeWhile isDigitChar
        let r3 := r2.dropWhile isDigitChar
        if ds = [] then none
        else
          match scanSepValue r3 with
          | some (v, r7) => some ((i, readNat ds, v), r7)
          | none => none
      else none
    | _ => none

/-- One spec Form-B token `Ck (:|=) v` at the head of the input. -/
def specTokenB (cs : List Char) : Option ((ℕ × Int) × List Char) :=
  match cs with
  | c :: r1 =>
    if c = 'C' || c = 'c' then
      let ds := r1.takeWhile isDigitChar
      let r2 := r1.dropWhile isDigitChar
      if ds = [] then none
      else
        match scanSepValue r2 with
        | some (v, r6) => some ((readNat ds, v), r6)
        | none => none
    else none
  | [] => none

/-- A whitespace-separated sequence of one or more spec Form-A tokens, all
of the board `i`, filling the rest of the line. -/
def specTokListA (i : Fin 7) : ℕ → List Char → Option (List (ℕ × Int))
  | 0, _ => none
  | fuel + 1, cs =>
    match specTokenA cs with
    | none => none
    | some ((j, ch, v), rest) =>
      if j = i then
        if rest = [] then some [(ch, v)]
        else
          let rest2 := rest.dropWhile isSpaceChar
          if rest2.length < rest.length then
            match specTokListA i fuel rest2 with
            | some ps => some ((ch, v) :: ps)
            | none => none
          else none
      else none

/-- A whitespace-separated sequence of one or more spec Form-B tokens
filling the rest of the line. -/
def specTokListB : ℕ → List Char → Option (List (ℕ × Int))
  | 0, _ => none
  | fuel + 1, cs =>
    match specTokenB cs with
    | none => none
    | some ((ch, v), rest) =>
      if rest = [] then some [(ch, v)]
      else
        let rest2 := rest.dropWhile isSpaceChar
        if rest2.length < rest.length then
          match specTokListB fuel rest2 with
          | some ps => some ((ch, v) :: ps)
          | none => none
        else none

/-- Whole-line spec Form A: one or more same-board tokens. -/
def specLineA (cs : List Char) : Option (Fin 7 × List (ℕ × Int)) :=
  let line := stripChars cs
  match specTokenA line with
  | none => none
  | some ((i, _, _), _) =>
    match specTokListA i line.length line with
    | some ps => some (i, ps)
    | none => none

/-- Whole-line spec Form B: the bracket tag then one or more tokens. -/
def specLineB (cs : List Char) : Option (Fin 7 × List (ℕ × Int)) :=
  let line := stripChars cs
  match line with
  | '[' :: r1 =>
    match matchUno (r1.dropWhile isSpaceChar) with
    | some (i, r2) =>
      match r2.dropWhile isSpaceChar with
      | ']' :: r3 =>
        let body := r3.dropWhile isSpaceChar
        if body = [] then none
        else
          match specTokListB body.length body with
          | some ps => some (i, ps)
          | none => none
      | _ => none
    | none => none
  | _ => none

/-- Claim C7 as stated, with the spec grammar above: a line matching Form A
or Form B parses to one `BoardData` holding exactly the written channel/value
pairs (last write per channel), and every other line yields no reading. -/
def claimC7 : Prop :=
  (∀ cs i pairs, specLineA cs = some (i, pairs) →
    parseLine cs = some ⟨i, buildDict pairs⟩) ∧
  (∀ cs i pairs, specLineB cs = some (i, pairs) →
    parseLine cs = some ⟨i, buildDict pairs⟩) ∧
  (∀ cs, specLineA cs = none → specLineB cs = none → parseLine cs = none)

/-! ## Board snapshot to head/body grids (`_convert_to_matrix`) -/

/-- All-zero `rows × cols` integer grid. -/
def zerosMat (rows cols : ℕ) : List (List Int) :=
  List.replicate rows (List.replicate cols 0)

/-- Write one cell of a grid. -/
def setMat (m : List (List Int)) (r c : ℕ) (v : Int) : List (List Int) :=
  m.set r ((m.getD r []).set c v)

/-- The `if val:` guard of `_convert_to_matrix`: a missing or zero channel
value leaves the cell untouched. -/
def setIfTruthy (m : List (List Int)) (r c : ℕ) (v : Option Int) : List (List Int) :=
  match v with
  | some x => if x ≠ 0 then setMat m r c x else m
  | none => m

/-- Model of `SerialCommunication._convert_to_matrix` (lines 57–91): board 0
(the head board) maps channels 0–2 and 3–5 to the two rows of the 2×3 head
grid; every other board `idx` maps channels 0–6 and 7–13 to rows
`2*idx - 2` and `2*idx - 1` of the 12×7 body grid. Boards with no entry or
an empty channel map are skipped (`if not data: continue`). -/
def convertToMatrix (boards : List (Fin 7 × BoardData)) :
    List (List Int) × List (List Int) :=
  (List.finRange 7).foldl
    (fun acc idx =>
      match assocFind boards idx with
      | none => acc
      | some bd =>
        if bd.data = [] then acc
        else
          let top := 2 * idx.val
          let bottom := top + 1
          if idx.val = 0 then
            let h1 := (List.range 3).foldl
              (fun h c => setIfTruthy h top c (assocFind bd.data c)) acc.1
            let h2 := (List.range 3).foldl
              (fun h c => setIfTruthy h bottom c (assocFind bd.data (3 + c))) h1
            (h2, acc.2)
          else
            let b1 := (List.range 7).foldl
              (fun b c => setIfTruthy b (top - 2) c (assocFind bd.data c)) acc.2
            let b2 := (List.range 7).foldl
              (fun b c => setIfTruthy b (bottom - 2) c (assocFind bd.data (7 + c))) b1
            (acc.1, b2))
    (zerosMat 2 3, zerosMat 12 7)

/-- The end-to-end scenario line `[UNO0] C0=10 C3=20`. -/
def scenarioLine : List Char :=
  ['[', 'U', 'N', 'O', '0', ']', ' ', 'C', '0', '=', '1', '0', ' ',
    'C', '3', '=', '2', '0']

/-- A line that matches neither wire form (a bracket tag followed by no
channel token): `[UNO0] hello`. -/
def taglessLine : List Char :=
  ['[', 'U', 'N', 'O', '0', ']', ' ', 'h', 'e', 'l', 'l', 'o']

/-- One spec Form-B token restricted to the capital `C` the source's
collection pattern (compiled without IGNORECASE) can see. -/
def specTokenBCap (cs : List Char) : Option ((ℕ × Int) × List Char) :=
  match cs with
  | c :: r1 =>
    if c = 'C' then
      let ds := r1.takeWhile isDigitChar
      let r2 := r1.dropWhile isDigitChar
      if ds = [] then none
      else
        match scanSepValue r2 with
        | some (v, r6) => some ((readNat ds, v), r6)
        | none => none
    else none
  | [] => none

/-- A whitespace-separated sequence of one or more capital-`C` spec Form-B
tokens filling the rest of the line. -/
def specTokListBCap : ℕ → List Char → Option (List (ℕ × Int))
  | 0, _ => none
  | fuel + 1, cs =>
    match specTokenBCap cs with
    | none => none
    | some ((ch, v), rest) =>
      if rest = [] then some [(ch, v)]
      else
        let rest2 := rest.dropWhile isSpaceChar
        if rest2.length < rest.length then
          match specTokListBCap fuel rest2 with
          | some ps => some ((ch, v) :: ps)
          | none => none
        else none

/-- Whole-line spec Form B restricted to capital-`C` tokens. -/
def specLineBCap (cs : List Char) : Option (Fin 7 × List (ℕ × Int)) :=
  let line := stripChars cs
  match line with
  | '[' :: r1 =>
    match matchUno (r1.dropWhile isSpaceChar) with
    | some (i, r2) =>
      match r2.dropWhile isSpaceChar with
      | ']' :: r3 =>
        let body := r3.dropWhile isSpaceChar
        if body = [] then none
        else
          match specTokListBCap body.length body with
          | some ps => some (i, ps)
          | none => none
      | _ => none
    | none => none
  | _ => none

/-- A spec-form Form-B line written with a lowercase `c` token:
`[UNO0] c1=5`. -/
def lowerLine : List Char := ['[', 'U', 'N', 'O', '0', ']', ' ', 'c', '1', '=', '5']

/-- A spec-form Form-A line mixing tag cases: `uno3_C12 : -45 UNO3_c7:9`. -/
def formALine : List Char :=
  ['u', 'n', 'o', '3', '_', 'C', '1', '2', ' ', ':', ' ', '-', '4', '5', ' ',
    'U', 'N', 'O', '3', '_', 'c', '7', ':', '9']

/-- A spec-form Form-B line with capital-`C` tokens: `[ uNo2 ] C0:7  C15=-3`. -/
def capBLine : List Char :=
  ['[', ' ', 'u', 'N', 'o', '2', ' ', ']', ' ', 'C', '0', ':', '7', ' ', ' ',
    'C', '1', '5', '=', '-', '3']

/-! ## Theorems -/

/-- Claim C6, counterexample: a (2,3) head does not match the 7-column
target (`max 3 7`), so `convert` interpolates it to 7 columns — the head rows
of the output have 7 entries, not the original 3. -/
theorem C6_counterexample : ¬ claimC6 := by
  intro h
  have heq := h [[0, 3, 6], [0, 3, 6]]
      (List.replicate 12 (List.replicate 7 (0 : ℚ)))
      (by decide) (by decide) (by decide) (by decide)
  have hl := congrArg (fun m => ((m.getD 0 []).length)) heq
  exact absurd hl (by decide)

/-- Claim C6 (amended): composition is idempotent exactly when the head's
column count already matches the body's — for a (2,7) head and (12,7) body,
`convert` returns the head stacked above the body with every value unchanged
and no interpolation applied; a (2,3) head is instead resized to 7 columns
by interpolation first. -/
theorem C6_stack_unchanged (head body : List (List ℚ))
    (hhr : head.length = 2) (hhc : ∀ r ∈ head, r.length = 7)
    (hbr : body.length = 12) (hbc : ∀ r ∈ body, r.length = 7) :
    convertHeatmap head body = head ++ body := by
  obtain ⟨a, b, rfl⟩ := List.length_eq_two.mp hhr
  cases body with
  | nil => simp at hbr
  | cons r rs =>
    have ha : a.length = 7 := hhc a (by simp)
    have hr : r.length = 7 := hbc r (by simp)
    simp [convertHeatmap, ha, hr]

/-- Claim C6 witness: the amended statement applied to concrete all-zero
(2,7) and (12,7) grids. -/
theorem C6_stack_unchanged_witness :
    convertHeatmap (List.replicate 2 (List.replicate 7 (0 : ℚ)))
        (List.replicate 12 (List.replicate 7 (0 : ℚ))) =
      List.replicate 2 (List.replicate 7 (0 : ℚ)) ++
        List.replicate 12 (List.replicate 7 (0 : ℚ)) :=
  C6_stack_unchanged _ _ (by decide) (by decide) (by decide) (by decide)

theorem assocFind_set_same {κ α : Type} [DecidableEq κ] (m : List (κ × α)) (b : κ) (v : α) :
    assocFind (assocSet m b v) b = some v := by
  induction m with
  | nil => simp [assocSet, assocFind]
  | cons p rest ih =>
    obtain ⟨k, w⟩ := p
    by_cases h : k = b <;> simp [assocSet, assocFind, h, ih]

theorem assocFind_set_other {κ α : Type} [DecidableEq κ] (m : List (κ × α)) (b b' : κ) (v : α)
    (h : b' ≠ b) : assocFind (assocSet m b v) b' = assocFind m b' := by
  have hb : ¬ b = b' := fun hh => h hh.symm
  induction m with
  | nil => simp [assocSet, assocFind, hb]
  | cons p rest ih =>
    obtain ⟨k, w⟩ := p
    by_cases hk : k = b
    · subst hk
      simp [assocSet, assocFind, hb]
    · by_cases hk2 : k = b' <;> simp [assocSet, assocFind, hk, hk2, hb, h, ih]

theorem runReadings_revision (st : SharedBoardState) (ds : List BoardData) :
    (runReadings st ds).revision = st.revision + ds.length := by
  induction ds generalizing st with
  | nil => simp [runReadings]
  | cons d rest ih =>
    have : runReadings st (d :: rest) = runReadings (acceptReading st d) rest := rfl
    rw [this, ih]
    simp [acceptReading]
    omega

theorem runReadings_lookup (st : SharedBoardState) (ds : List BoardData) (b : Fin 7) :
    assocFind (runReadings st ds).boards b =
      match lastReadingFor ds b with
      | some e => some e
      | none => assocFind st.boards b := by
  induction ds generalizing st with
  | nil => simp [runReadings, lastReadingFor]
  | cons d rest ih =>
    have hrun : runReadings st (d :: rest) = runReadings (acceptReading st d) rest := rfl
    rw [hrun, ih]
    cases hl : lastReadingFor rest b with
    | some e => simp [lastReadingFor, hl]
    | none =>
      by_cases hb : d.board = b
      · subst hb
        simp [lastReadingFor, hl, acceptReading, assocFind_set_same]
      · simp [lastReadingFor, hl, hb, acceptReading,
          assocFind_set_other st.boards d.board b d (fun hh => hb hh.symm)]

/-- Claim C9: for every sequence of accepted readings, the revision counter
grows by exactly one per accepted reading (hence never decreases, as the
prefix bound states), the reading just accepted is immediately held in the
map for its board, and after the whole sequence each board's entry is the
last reading accepted for that board (last-writer-per-board-wins, no
accepted write dropped). -/
theorem C9_revision_and_last_writer_wins :
    (∀ st d, (acceptReading st d).revision = st.revision + 1) ∧
    (∀ st d, assocFind (acceptReading st d).boards d.board = some d) ∧
    (∀ st ds, (runReadings st ds).revision = st.revision + ds.length) ∧
    (∀ st ds n, (runReadings st (ds.take n)).revision ≤ (runReadings st ds).revision) ∧
    (∀ st ds b,
      assocFind (runReadings st ds).boards b =
        match lastReadingFor ds b with
        | some e => some e
        | none => assocFind st.boards b) := by
  refine ⟨fun st d => rfl, fun st d => assocFind_set_same _ _ _, runReadings_revision,
    fun st ds n => ?_, runReadings_lookup⟩
  rw [runReadings_revision, runReadings_revision, List.length_take]
  omega

/-- Claim C8: parsing the line `[UNO0] C0=10 C3=20` yields the head-board
reading with channels 0 and 3, and converting that snapshot puts 10 at the
head grid's top row column 0, 20 at its bottom row column 0, and 0 in every
other head and body cell. -/
theorem C8_end_to_end_scenario :
    ∃ bd, parseLine scenarioLine = some bd ∧
      convertToMatrix [(bd.board, bd)] =
        ([[10, 0, 0], [20, 0, 0]], zerosMat 12 7) := by
  refine ⟨⟨0, [(0, 10), (3, 20)]⟩, by decide, by decide⟩

theorem refreshThreshold_hasPatient_false (f : Bool) (now : DateTime)
    (fo : FetchOutcome) (st : LoggerState) (hst : st.hasPatientThreshold = false)
    (hfo : ∀ q, fo ≠ FetchOutcome.patient q) :
    (refreshThreshold f now fo st).hasPatientThreshold = false := by
  cases hsk : cooldownSkip f now st with
  | true => simpa [refreshThreshold, hsk] using hst
  | false =>
    cases fo with
    | err => simpa [refreshThreshold, hsk, applyFetchOutcome] using hst
    | noPatient => simp [refreshThreshold, hsk, applyFetchOutcome]
    | patient q => exact absurd rfl (hfo q)

theorem triggerNotifications_of_no_patient (st : LoggerState)
    (plog : Option PressureCache) (sr : Option Bool)
    (hst : st.hasPatientThreshold = false) :
    triggerNotifications st plog sr = (st, false) := by
  unfold triggerNotifications
  cases plog with
  | none => rfl
  | some log => simp [hst]

theorem getLastFromFiles_fields (st : LoggerState) (d today : Int) :
    (getLastFromFiles st d today).1.store = st.store ∧
    (getLastFromFiles st d today).1.hasPatientThreshold = st.hasPatientThreshold ∧
    (getLastFromFiles st d today).1.threshold = st.threshold ∧
    (getLastFromFiles st d today).1.notificationSent = st.notificationSent ∧
    (getLastFromFiles st d today).1.thresholdLoadedAt = st.thresholdLoadedAt := by
  unfold getLastFromFiles
  repeat' split
  all_goals exact ⟨rfl, rfl, rfl, rfl, rfl⟩

theorem getLastPressureLog_fields (st : LoggerState) (d today : Int) :
    (getLastPressureLog st d today).1.store = st.store ∧
    (getLastPressureLog st d today).1.hasPatientThreshold = st.hasPatientThreshold ∧
    (getLastPressureLog st d today).1.threshold = st.threshold ∧
    (getLastPressureLog st d today).1.notificationSent = st.notificationSent ∧
    (getLastPressureLog st d today).1.thresholdLoadedAt = st.thresholdLoadedAt := by
  unfold getLastPressureLog
  repeat' split
  all_goals first
    | exact ⟨rfl, rfl, rfl, rfl, rfl⟩
    | exact getLastFromFiles_fields st d today

theorem logLocally_no_patient (st : LoggerState) (o : StepOracle) (t : DateTime)
    (p : PostureObs) (hst : st.hasPatientThreshold = false)
    (h1 : ∀ q, o.fo1 ≠ FetchOutcome.patient q)
    (h2 : ∀ q, o.fo2 ≠ FetchOutcome.patient q) :
    (logLocally st o t p).state.hasPatientThreshold = false ∧
    (logLocally st o t p).notified = false := by
  unfold logLocally
  dsimp only
  have hA : (refreshThreshold false t o.fo1 st).hasPatientThreshold = false :=
    refreshThreshold_hasPatient_false _ _ _ _ hst h1
  have hB : ((getLastPressureLog (refreshThreshold false t o.fo1 st) t.day t.day).1).hasPatientThreshold = false := by
    rw [(getLastPressureLog_fields _ _ _).2.1]
    exact hA
  rw [triggerNotifications_of_no_patient]
  · exact ⟨by simp [saveDaycache]; split <;> simp [refreshThreshold_hasPatient_false _ _ _ _ hB h2, hB], rfl⟩
  · simp only [saveDaycache]
    split <;> simp [refreshThreshold_hasPatient_false _ _ _ _ hB h2, hB]

/-- Claim C10: while no real patient threshold has been fetched
(`_has_patient_threshold` is false — the built-in defaults are in effect),
`_trigger_notifications` returns without calling `send_notification`, no
matter how far the accumulated seconds exceed the default thresholds; and
along any observation run whose patient fetches keep failing or finding no
patient, no step ever notifies. -/
theorem C10_default_thresholds_never_notify :
    (∀ (st : LoggerState) (plog : Option PressureCache) (sr : Option Bool),
      st.hasPatientThreshold = false → triggerNotifications st plog sr = (st, false)) ∧
    (∀ (st : LoggerState) (obs : List (StepOracle × DateTime × PostureObs)),
      st.hasPatientThreshold = false →
      (∀ item ∈ obs, (∀ q, item.1.fo1 ≠ FetchOutcome.patient q) ∧
        (∀ q, item.1.fo2 ≠ FetchOutcome.patient q)) →
      ∀ r ∈ (runObs st obs).2, r.notified = false) := by
  refine ⟨fun st plog sr h => triggerNotifications_of_no_patient st plog sr h, ?_⟩
  intro st obs
  induction obs generalizing st with
  | nil =>
    intro _ _ r hr
    simp [runObs] at hr
  | cons item rest ih =>
    intro hst hall r hr
    obtain ⟨o, t, p⟩ := item
    have hitem := hall (o, t, p) (List.mem_cons_self _ _)
    have hstep := logLocally_no_patient st o t p hst hitem.1 hitem.2
    simp only [runObs, List.mem_cons] at hr
    rcases hr with rfl | hr
    · exact hstep.2
    · exact ih _ hstep.1 (fun it hit => hall it (List.mem_cons_of_mem _ hit)) r hr

/-- Claim C10 witness: with default thresholds only, even a session entry
far beyond every threshold triggers nothing. -/
theorem C10_default_thresholds_never_notify_witness :
    triggerNotifications ⟨defaultThreshold, notifAllFalse, none, false, none, []⟩
        (some ⟨1, ⟨0, 0⟩, 99999, 99999, 99999, 99999, 99999, PostureType.supine, ⟨0, 0⟩⟩)
        (some true) =
      (⟨defaultThreshold, notifAllFalse, none, false, none, []⟩, false) :=
  C10_default_thresholds_never_notify.1 _ _ _ rfl

theorem triggerNotifications_fields (st : LoggerState) (plog : Option PressureCache)
    (sr : Option Bool) :
    (triggerNotifications st plog sr).1.threshold = st.threshold ∧
    (triggerNotifications st plog sr).1.thresholdLoadedAt = st.thresholdLoadedAt ∧
    (triggerNotifications st plog sr).1.hasPatientThreshold = st.hasPatientThreshold ∧
    (triggerNotifications st plog sr).1.lastDayCache = st.lastDayCache ∧
    (triggerNotifications st plog sr).1.store = st.store := by
  unfold triggerNotifications
  cases plog with
  | none => exact ⟨rfl, rfl, rfl, rfl, rfl⟩
  | some log =>
    dsimp only
    repeat' split
    all_goals exact ⟨rfl, rfl, rfl, rfl, rfl⟩

theorem refreshThreshold_forced_loadedAt (now : DateTime) (fo : FetchOutcome)
    (st : LoggerState) :
    (refreshThreshold true now fo st).thresholdLoadedAt = some now := by
  cases fo with
  | err => rfl
  | noPatient => rfl
  | patient q =>
    dsimp [refreshThreshold, cooldownSkip, applyFetchOutcome]
    split <;> rfl

theorem refreshThreshold_cache (f : Bool) (now : DateTime) (fo : FetchOutcome)
    (st : LoggerState) :
    (refreshThreshold f now fo st).lastDayCache = st.lastDayCache ∧
    (refreshThreshold f now fo st).store = st.store := by
  unfold refreshThreshold
  split
  · exact ⟨rfl, rfl⟩
  · unfold applyFetchOutcome
    cases fo with
    | err => exact ⟨rfl, rfl⟩
    | noPatient => exact ⟨rfl, rfl⟩
    | patient q =>
      dsimp only
      split <;> exact ⟨rfl, rfl⟩

theorem getLastPressureLog_hit (st : LoggerState) (d today : Int) (dc : DayCache)
    (e : PressureCache) (hlc : st.lastDayCache = some dc) (hdate : dc.date = d)
    (hlogs : dc.logs = [e]) :
    getLastPressureLog st d today = (st, some (0, e)) := by
  unfold getLastPressureLog
  rw [hlc]
  simp [hdate, hlogs, lastEntry]

theorem getLastPressureLog_empty (st : LoggerState) (d today : Int)
    (h1 : st.lastDayCache = none) (h2 : st.store = []) :
    getLastPressureLog st d today = (st, none) := by
  unfold getLastPressureLog getLastFromFiles
  rw [h1, h2]
  rfl

theorem credit_step (b : Bool) (k : ℕ) (dt : Int) :
    (if b then (k : Int) * dt else 0) + (if b then dt else 0) =
    (if b then (((k + 1 : ℕ) : Int)) * dt else 0) := by
  cases b <;> simp <;> push_cast <;> ring

theorem session_invariant (st0 : LoggerState) (os : ℕ → StepOracle) (d t0 dt : Int)
    (p : PostureObs) (hlc : st0.lastDayCache = none) (hst : st0.store = [])
    (hdt : 0 ≤ dt) : ∀ k : ℕ,
    (sessionStep st0 os d t0 dt p k).plog = sessionEntry d t0 dt p k ∧
    (sessionStep st0 os d t0 dt p k).dayCache = sessionCache d t0 dt p k ∧
    (sessionState st0 os d t0 dt p (k + 1)).lastDayCache =
      some (sessionCache d t0 dt p k) ∧
    (sessionState st0 os d t0 dt p (k + 1)).store =
      [(d, sessionCache d t0 dt p k)] := by
  intro k
  induction k with
  | zero =>
    have hre := refreshThreshold_cache false ⟨d, t0 + dt * ((0 : ℕ) : Int)⟩ (os 0).fo1 st0
    have hempty := getLastPressureLog_empty
      (refreshThreshold false ⟨d, t0 + dt * ((0 : ℕ) : Int)⟩ (os 0).fo1 st0) d d
      (by rw [hre.1, hlc]) (by rw [hre.2, hst])
    have hstep : sessionState st0 os d t0 dt p 1 = (sessionStep st0 os d t0 dt p 0).state := rfl
    rw [hstep]
    unfold sessionStep
    show _ ∧ _ ∧ _ ∧ _
    unfold logLocally
    dsimp only
    simp only [show sessionState st0 os d t0 dt p 0 = st0 from rfl]
    rw [hempty]
    dsimp only
    rw [hre.2, hst]
    simp only [openDaycache, assocFind, generatePressureLogId, bumpId, List.map_nil,
      List.contains_nil, List.length_nil, Bool.false_eq_true, if_false, ite_self,
      Option.isNone_none, Bool.true_or, if_true, Nat.cast_zero, mul_zero, add_zero,
      zero_add, gt_iff_lt, lt_self_iff_false, false_and, List.nil_append]
    refine ⟨by simp [sessionEntry, timeIdOf], by simp [sessionCache, sessionEntry, timeIdOf], ?_, ?_⟩
    · rw [(triggerNotifications_fields _ _ _).2.2.2.1]
      simp [saveDaycache, sessionCache, sessionEntry, timeIdOf]
    · rw [(triggerNotifications_fields _ _ _).2.2.2.2]
      simp [saveDaycache, assocSet, sessionCache, sessionEntry, timeIdOf]
      rw [(refreshThreshold_cache _ _ _ _).2]
      rw [(refreshThreshold_cache false ⟨d, t0⟩ (os 0).fo1 st0).2, hst]
      rfl
  | succ k ih =>
    obtain ⟨ihp, ihd, ihlc, ihstore⟩ := ih
    have hre := refreshThreshold_cache false ⟨d, t0 + dt * ((k + 1 : ℕ) : Int)⟩
      (os (k + 1)).fo1 (sessionState st0 os d t0 dt p (k + 1))
    have hhit := getLastPressureLog_hit
      (refreshThreshold false ⟨d, t0 + dt * ((k + 1 : ℕ) : Int)⟩ (os (k + 1)).fo1
        (sessionState st0 os d t0 dt p (k + 1))) d d
      (sessionCache d t0 dt p k) (sessionEntry d t0 dt p k)
      (by rw [hre.1, ihlc]) rfl rfl
    have hstep : sessionState st0 os d t0 dt p (k + 1 + 1) =
      (sessionStep st0 os d t0 dt p (k + 1)).state := rfl
    rw [hstep]
    unfold sessionStep
    show _ ∧ _ ∧ _ ∧ _
    unfold logLocally
    dsimp only
    rw [hhit]
    dsimp only
    rw [hre.2, ihstore]
    have hreuse : ((sessionEntry d t0 dt p k).time.day =
        (⟨d, t0 + dt * ((k + 1 : ℕ) : Int)⟩ : DateTime).day ∧
        (sessionEntry d t0 dt p k).posture = p.type) := ⟨rfl, rfl⟩
    rw [if_pos hreuse]
    dsimp only
    have hacc : dtDiffSeconds ⟨d, t0 + dt * ((k + 1 : ℕ) : Int)⟩
        (sessionEntry d t0 dt p k).time = dt := by
      simp [dtDiffSeconds, sessionEntry]
      push_cast
      ring
    rw [hacc]
    have hdayne : (decide ((sessionEntry d t0 dt p k).time.day ≠ d)) = false := by
      simp [sessionEntry]
    have hopen : openDaycache [(d, sessionCache d t0 dt p k)] d =
        sessionCache d t0 dt p k := by
      simp [openDaycache, assocFind]
    refine ⟨?_, ?_, ?_, ?_⟩
    · simp only [sessionEntry, PressureCache.mk.injEq]
      repeat' apply And.intro
      all_goals first | trivial | exact credit_step _ _ _
    · simp only [hdayne, Option.isNone_some, Bool.false_eq_true, or_self, if_false,
        hopen, eq_self_iff_true, and_true, gt_iff_lt]
      rcases eq_or_lt_of_le hdt with heq | hpos
      · rw [if_neg (by omega)]
        simp [sessionCache, sessionEntry, List.set, ← heq]
      · rw [if_pos hpos]
        simp only [sessionCache, sessionEntry, DayCache.mk.injEq, List.set,
          List.cons.injEq, PressureCache.mk.injEq]
        repeat' apply And.intro
        all_goals first | trivial | exact credit_step _ _ _
    · rw [(triggerNotifications_fields _ _ _).2.2.2.1]
      simp only [saveDaycache, hdayne, Option.isNone_some, Bool.false_eq_true, or_self,
        if_false, hopen, eq_self_iff_true, and_true, gt_iff_lt]
      rcases eq_or_lt_of_le hdt with heq | hpos
      · simp [sessionCache, sessionEntry, List.set, ← heq]
      · rw [if_pos hpos]
        simp only [sessionCache, sessionEntry, List.set]
        simp only [if_true, Option.some.injEq, DayCache.mk.injEq, List.cons.injEq,
          PressureCache.mk.injEq]
        repeat' apply And.intro
        all_goals first | trivial | exact credit_step _ _ _
    · rw [(triggerNotifications_fields _ _ _).2.2.2.2]
      simp only [saveDaycache, hdayne, Option.isNone_some, Bool.false_eq_true, or_self,
        if_false, hopen, eq_self_iff_true, and_true, gt_iff_lt, assocSet]
      rw [hre.2, ihstore]
      rcases eq_or_lt_of_le hdt with heq | hpos
      · simp [sessionCache, sessionEntry, List.set, assocSet, ← heq]
      · rw [if_pos hpos]
        simp only [sessionCache, sessionEntry, List.set, assocSet]
        simp only [if_true, List.cons.injEq, Prod.mk.injEq, DayCache.mk.injEq,
          PressureCache.mk.injEq]
        repeat' apply And.intro
        all_goals first | trivial | exact credit_step _ _ _

/-- Digit characters rendered from values below ten are `\d`. -/
theorem digitChar_isDigit (k : ℕ) (h : k < 10) : isDigitChar (Char.ofNat (48 + k)) = true := by
  interval_cases k <;> decide

/-- `digitVal` inverts digit rendering below ten. -/
theorem digitVal_digitChar (k : ℕ) (h : k < 10) : digitVal (Char.ofNat (48 + k)) = k := by
  interval_cases k <;> decide

/-- Every character of `natChars` is a digit. -/
theorem natChars_digits (n : ℕ) : ∀ c ∈ natChars n, isDigitChar c = true := by
  induction n using Nat.strong_induction_on with
  | _ n ih =>
    rw [natChars]
    split
    · next h =>
      intro c hc
      simp only [List.mem_singleton] at hc
      subst hc
      exact digitChar_isDigit n h
    · next h =>
      intro c hc
      rcases List.mem_append.mp hc with h1 | h2
      · exact ih (n / 10) (Nat.div_lt_self (by omega) (by omega)) c h1
      · simp only [List.mem_singleton] at h2
        subst h2
        exact digitChar_isDigit (n % 10) (Nat.mod_lt _ (by omega))

/-- `natChars` is never empty. -/
theorem natChars_ne_nil (n : ℕ) : natChars n ≠ [] := by
  rw [natChars]; split <;> simp

/-- `readNat` over a digit run extended by one digit. -/
theorem readNat_append (ds : List Char) (c : Char) :
    readNat (ds ++ [c]) = 10 * readNat ds + digitVal c := by
  simp [readNat, List.foldl_append]

/-- `readNat` inverts `natChars`. -/
theorem readNat_natChars (n : ℕ) : readNat (natChars n) = n := by
  induction n using Nat.strong_induction_on with
  | _ n ih =>
    rw [natChars]
    split
    · next h => simp [readNat, digitVal_digitChar n h]
    · next h =>
      rw [readNat_append, ih (n / 10) (Nat.div_lt_self (by omega) (by omega)),
        digitVal_digitChar (n % 10) (Nat.mod_lt _ (by omega))]
      omega

/-- `natChars` ends in a digit. -/
theorem natChars_concat (n : ℕ) :
    ∃ l d, natChars n = l ++ [d] ∧ isDigitChar d = true := by
  rw [natChars]
  split
  · next h => exact ⟨[], _, rfl, digitChar_isDigit n h⟩
  · next h => exact ⟨natChars (n / 10), _, rfl, digitChar_isDigit (n % 10) (Nat.mod_lt _ (by omega))⟩

/-- A digit is a word character. -/
theorem isDigitChar_isWord (c : Char) (h : isDigitChar c = true) : isWordChar c = true := by
  simp [isWordChar, Char.isAlphanum, show c.isDigit = true from h]

/-- A digit differs from every non-digit character. -/
theorem isDigitChar_ne (c x : Char) (h : isDigitChar c = true)
    (hx : isDigitChar x = false) : ¬ c = x := by
  intro hc; rw [hc, hx] at h; exact Bool.noConfusion h

/-- A digit is not whitespace. -/
theorem isDigitChar_not_space (c : Char) (h : isDigitChar c = true) : isSpaceChar c = false := by
  have hne : ∀ x : Char, isDigitChar x = false → ¬ c = x := fun x hx => isDigitChar_ne c x h hx
  simp [isSpaceChar, hne ' ' (by decide), hne '\t' (by decide), hne '\n' (by decide),
    hne '\r' (by decide), hne '\x0b' (by decide), hne '\x0c' (by decide)]

/-- A non-word character is not a digit. -/
theorem not_word_not_digit (c : Char) (h : isWordChar c = false) : isDigitChar c = false := by
  cases hd : isDigitChar c
  · rfl
  · rw [isDigitChar_isWord c hd] at h; exact Bool.noConfusion h

/-- `takeWhile` walks over a prefix all of whose elements satisfy it. -/
theorem takeWhile_append_all {α : Type} (p : α → Bool) (l r : List α)
    (h : ∀ c ∈ l, p c = true) : (l ++ r).takeWhile p = l ++ r.takeWhile p := by
  induction l with
  | nil => simp
  | cons a t ih =>
    simp [List.takeWhile_cons, h a (List.mem_cons_self a t),
      ih fun c hc => h c (List.mem_cons_of_mem a hc)]

/-- `dropWhile` consumes a prefix all of whose elements satisfy it. -/
theorem dropWhile_append_all {α : Type} (p : α → Bool) (l r : List α)
    (h : ∀ c ∈ l, p c = true) : (l ++ r).dropWhile p = r.dropWhile p := by
  induction l with
  | nil => simp
  | cons a t ih =>
    simp [List.dropWhile_cons, h a (List.mem_cons_self a t),
      ih fun c hc => h c (List.mem_cons_of_mem a hc)]

/-- `takeWhile` stops at once when the head fails the test. -/
theorem takeWhile_head_false {α : Type} (p : α → Bool) (l : List α)
    (h : ∀ c ∈ l.take 1, p c = false) : l.takeWhile p = [] := by
  cases l with
  | nil => rfl
  | cons a t => simp [List.takeWhile_cons, h a (by simp)]

/-- `dropWhile` keeps the list when the head fails the test. -/
theorem dropWhile_head_false {α : Type} (p : α → Bool) (l : List α)
    (h : ∀ c ∈ l.take 1, p c = false) : l.dropWhile p = l := by
  cases l with
  | nil => rfl
  | cons a t => simp [List.dropWhile_cons, h a (by simp)]

/-- Skipping a run of rendered spaces. -/
theorem dropWhile_space_replicate (n : ℕ) (r : List Char) :
    (List.replicate n ' ' ++ r).dropWhile isSpaceChar = r.dropWhile isSpaceChar := by
  apply dropWhile_append_all
  intro c hc
  rw [List.eq_of_mem_replicate hc]
  decide

/-- The separator block never starts with a digit. -/
theorem sepBlock_head_not_digit (pre : ℕ) (b : Bool) (z : List Char) :
    ∀ c ∈ (List.replicate pre ' ' ++ sepChar b :: z).take 1, isDigitChar c = false := by
  cases pre with
  | zero =>
    intro c hc
    simp only [List.replicate_zero, List.nil_append, List.take_succ_cons, List.take_zero,
      List.mem_singleton] at hc
    subst hc
    cases b <;> decide
  | succ k =>
    intro c hc
    simp only [List.replicate_succ, List.cons_append, List.take_succ_cons, List.take_zero,
      List.mem_singleton] at hc
    subst hc
    decide

/-- A rendered numeral block never starts with whitespace. -/
theorem natChars_head_not_space (n : ℕ) (z : List Char) :
    ∀ c ∈ (natChars n ++ z).take 1, isSpaceChar c = false := by
  intro c hc
  cases hnc : natChars n with
  | nil => exact absurd hnc (natChars_ne_nil n)
  | cons a t =>
    rw [hnc] at hc
    simp only [List.cons_append, List.take_succ_cons, List.take_zero, List.mem_singleton] at hc
    subst hc
    exact isDigitChar_not_space c (natChars_digits n c (by rw [hnc]; exact List.mem_cons_self c t))

/-- A rendered integer never starts with whitespace. -/
theorem intChars_head_not_space (v : Int) (z : List Char) :
    ∀ c ∈ (intChars v ++ z).take 1, isSpaceChar c = false := by
  intro c hc
  rw [intChars] at hc
  split at hc
  · simp only [List.cons_append, List.take_succ_cons, List.take_zero, List.mem_singleton] at hc
    subst hc
    decide
  · exact natChars_head_not_space v.toNat z c hc

/-- `matchUno` at a rendered board tag. -/
theorem matchUnoAtTag (i : Fin 7) (r : List Char) :
    matchUno ('U' :: 'N' :: 'O' :: Char.ofNat (48 + i.val) :: r) = some (i, r) := by
  fin_cases i <;> rfl

/-- `matchUno` fails whenever the head is not `U`/`u`. -/
theorem matchUno_none_head (c : Char) (t : List Char) (h1 : ¬ c = 'U') (h2 : ¬ c = 'u') :
    matchUno (c :: t) = none := by
  cases t with
  | nil => rfl
  | cons a t1 =>
    cases t1 with
    | nil => rfl
    | cons b t2 =>
      cases t2 with
      | nil => rfl
      | cons d t3 => simp [matchUno, h1, h2]

/-- The separator/value scanner over a rendered separator block followed by a
rendered integer, with no digit immediately after. -/
theorem scanSepValue_render (pre : ℕ) (b : Bool) (post : ℕ) (v : Int) (r : List Char)
    (hr : ∀ c ∈ r.take 1, isDigitChar c = false) :
    scanSepValue (List.replicate pre ' ' ++ sepChar b ::
      (List.replicate post ' ' ++ (intChars v ++ r))) = some (v, r) := by
  have hsep : isSpaceChar (sepChar b) = false := by cases b <;> decide
  have htkr : r.takeWhile isDigitChar = [] := takeWhile_head_false _ _ hr
  have hdrr : r.dropWhile isDigitChar = r := dropWhile_head_false _ _ hr
  unfold scanSepValue
  rw [dropWhile_space_replicate, List.dropWhile_cons_of_neg (by rw [hsep]; exact Bool.false_ne_true)]
  dsimp only
  rw [if_pos (by cases b <;> decide)]
  rw [dropWhile_space_replicate, dropWhile_head_false _ _ (intChars_head_not_space v r)]
  by_cases hv : v < 0
  · rw [show intChars v = '-' :: natChars v.natAbs by rw [intChars, if_pos hv]]
    rw [show matchNeg (('-' :: natChars v.natAbs) ++ r) = (true, natChars v.natAbs ++ r) by
      simp [matchNeg]]
    dsimp only
    rw [takeWhile_append_all _ _ _ (natChars_digits v.natAbs), htkr, List.append_nil,
      dropWhile_append_all _ _ _ (natChars_digits v.natAbs), hdrr]
    rw [if_neg (natChars_ne_nil v.natAbs)]
    rw [readNat_natChars]
    have : -((v.natAbs : ℕ) : Int) = v := by omega
    rw [if_pos rfl, this]
  · rw [show intChars v = natChars v.toNat by rw [intChars, if_neg hv]]
    obtain ⟨a, t, hnc⟩ := List.exists_cons_of_ne_nil (natChars_ne_nil v.toNat)
    have ha : isDigitChar a = true := natChars_digits v.toNat a (by rw [hnc]; exact List.mem_cons_self a t)
    rw [hnc]
    rw [show matchNeg ((a :: t) ++ r) = (false, a :: t ++ r) by
      simp [matchNeg, isDigitChar_ne a '-' ha (by decide)]]
    dsimp only
    rw [show a :: t ++ r = (a :: t) ++ r from rfl, ← hnc]
    rw [takeWhile_append_all _ _ _ (natChars_digits v.toNat), htkr, List.append_nil,
      dropWhile_append_all _ _ _ (natChars_digits v.toNat), hdrr]
    rw [if_neg (natChars_ne_nil v.toNat)]
    rw [readNat_natChars]
    have : ((v.toNat : ℕ) : Int) = v := by omega
    rw [this]
    simp

/-- A rendered Form-A token in head-normal form. -/
theorem renderTokA_cons (i : Fin 7) (t : ChanTok) (r : List Char) :
    renderTokA i t ++ r = 'U' :: 'N' :: 'O' :: Char.ofNat (48 + i.val) :: '_' :: 'C' ::
      (natChars t.ch ++ (List.replicate t.preSpaces ' ' ++ sepChar t.sepColon ::
        (List.replicate t.postSpaces ' ' ++ (intChars t.val ++ r)))) := by
  simp [renderTokA, boardChars]

/-- A rendered Form-B token in head-normal form. -/
theorem renderTokB_cons (t : ChanTok) (r : List Char) :
    renderTokB t ++ r = 'C' ::
      (natChars t.ch ++ (List.replicate t.preSpaces ' ' ++ sepChar t.sepColon ::
        (List.replicate t.postSpaces ' ' ++ (intChars t.val ++ r)))) := by
  simp [renderTokB]

/-- The Form-A collection pattern over a rendered token followed by a
non-digit (or end of input). -/
theorem matchPairA_render (i : Fin 7) (t : ChanTok) (r : List Char)
    (hr : ∀ c ∈ r.take 1, isDigitChar c = false) :
    matchPairA i (renderTokA i t ++ r) = some (t.ch, t.val, r) := by
  rw [renderTokA_cons]
  unfold matchPairA
  rw [matchUnoAtTag]
  dsimp only
  rw [if_pos rfl]
  split
  · next c r3 heq =>
    injection heq with ha hb
    injection hb with hc hd
    subst hc
    subst hd
    rw [if_pos (by decide)]
    rw [takeWhile_append_all _ _ _ (natChars_digits t.ch),
      takeWhile_head_false _ _ (sepBlock_head_not_digit _ _ _), List.append_nil,
      dropWhile_append_all _ _ _ (natChars_digits t.ch),
      dropWhile_head_false _ _ (sepBlock_head_not_digit _ _ _)]
    rw [if_neg (natChars_ne_nil t.ch)]
    rw [scanSepValue_render _ _ _ _ _ hr]
    rw [readNat_natChars]
  · next h => exact absurd rfl (h _ _)

/-- The Form-A search pattern over a rendered token followed by a non-word
character (or end of input). -/
theorem matchFormAAt_render (i : Fin 7) (t : ChanTok) (r : List Char)
    (hw : ∀ c ∈ r.take 1, isWordChar c = false) :
    matchFormAAt (renderTokA i t ++ r) = some i := by
  have hr : ∀ c ∈ r.take 1, isDigitChar c = false :=
    fun c hc => not_word_not_digit c (hw c hc)
  have hb : boundaryOk r = true := by
    cases r with
    | nil => rfl
    | cons a tl => simp [boundaryOk, hw a (by simp)]
  rw [renderTokA_cons]
  unfold matchFormAAt
  rw [matchUnoAtTag]
  dsimp only
  split
  · next c r3 heq =>
    injection heq with ha hb2
    injection hb2 with hc hd
    subst hc
    subst hd
    rw [if_pos (by decide)]
    rw [takeWhile_append_all _ _ _ (natChars_digits t.ch),
      takeWhile_head_false _ _ (sepBlock_head_not_digit _ _ _), List.append_nil,
      dropWhile_append_all _ _ _ (natChars_digits t.ch),
      dropWhile_head_false _ _ (sepBlock_head_not_digit _ _ _)]
    rw [if_neg (natChars_ne_nil t.ch)]
    rw [scanSepValue_render _ _ _ _ _ hr]
    dsimp only
    rw [if_pos hb]
  · next h => exact absurd rfl (h _ _)

/-- The Form-B collection pattern over a rendered token followed by a
non-word character (or end of input). -/
theorem matchPairBr_render (t : ChanTok) (r : List Char)
    (hw : ∀ c ∈ r.take 1, isWordChar c = false) :
    matchPairBr (renderTokB t ++ r) = some (t.ch, t.val, r) := by
  have hr : ∀ c ∈ r.take 1, isDigitChar c = false :=
    fun c hc => not_word_not_digit c (hw c hc)
  have hb : boundaryOk r = true := by
    cases r with
    | nil => rfl
    | cons a tl => simp [boundaryOk, hw a (by simp)]
  rw [renderTokB_cons]
  unfold matchPairBr
  dsimp only
  rw [if_pos rfl]
  rw [dropWhile_head_false _ _ (natChars_head_not_space t.ch _)]
  rw [takeWhile_append_all _ _ _ (natChars_digits t.ch),
    takeWhile_head_false _ _ (sepBlock_head_not_digit _ _ _), List.append_nil,
    dropWhile_append_all _ _ _ (natChars_digits t.ch),
    dropWhile_head_false _ _ (sepBlock_head_not_digit _ _ _)]
  rw [if_neg (natChars_ne_nil t.ch)]
  rw [scanSepValue_render _ _ _ _ _ hr]
  dsimp only
  rw [if_pos hb]
  rw [readNat_natChars]

/-- The Form-A collection pattern fails at a head other than `U`/`u`. -/
theorem matchPairA_none_head (i : Fin 7) (c : Char) (tl : List Char)
    (h1 : ¬ c = 'U') (h2 : ¬ c = 'u') : matchPairA i (c :: tl) = none := by
  unfold matchPairA
  rw [matchUno_none_head c tl h1 h2]

/-- The Form-A search pattern fails at a head other than `U`/`u`. -/
theorem matchFormAAt_none_head (c : Char) (tl : List Char)
    (h1 : ¬ c = 'U') (h2 : ¬ c = 'u') : matchFormAAt (c :: tl) = none := by
  unfold matchFormAAt
  rw [matchUno_none_head c tl h1 h2]

/-- The Form-B collection pattern fails at a head other than capital `C`. -/
theorem matchPairBr_none_head (c : Char) (tl : List Char)
    (h : ¬ c = 'C') : matchPairBr (c :: tl) = none := by
  unfold matchPairBr
  dsimp only
  rw [if_neg h]

/-- `re.search` of Form A finds a head match. -/
theorem searchFormA_head (c : Char) (rest : List Char) (i : Fin 7)
    (h : matchFormAAt (c :: rest) = some i) : searchFormA false (c :: rest) = some i := by
  unfold searchFormA
  rw [if_pos rfl, h]

/-- `re.search` of Form A fails when the pattern matches at no position. -/
theorem searchFormA_none (cs : List Char) :
    ∀ pw, (∀ n, matchFormAAt (cs.drop n) = none) → searchFormA pw cs = none := by
  induction cs with
  | nil => intro pw h; cases pw <;> rfl
  | cons c rest ih =>
    intro pw h
    have h0 : matchFormAAt (c :: rest) = none := by have := h 0; simpa using this
    have htail : ∀ n, matchFormAAt (rest.drop n) = none := by
      intro n; have := h (n + 1); simpa using this
    unfold searchFormA
    cases pw with
    | false =>
      rw [if_pos rfl, h0]
      exact ih (isWordChar c) htail
    | true =>
      rw [if_neg (by decide)]
      exact ih (isWordChar c) htail

/-- `re.search` of the bracket tag finds a head match. -/
theorem searchBracket_head (cs : List Char) (i : Fin 7)
    (h : matchBracketAt cs = some i) : searchBracket cs = some i := by
  cases cs with
  | nil =>
    rw [show matchBracketAt [] = none from rfl] at h
    exact Option.noConfusion h
  | cons a tl =>
    unfold searchBracket
    rw [h]

/-- The Form-A search pattern rejects a board tag followed by `]`. -/
theorem matchFormAAt_rbrack (i : Fin 7) (tl : List Char) :
    matchFormAAt ('U' :: 'N' :: 'O' :: Char.ofNat (48 + i.val) :: ']' :: tl) = none := by
  unfold matchFormAAt
  rw [matchUnoAtTag]
  dsimp only
  split
  · next c r3 heq =>
    injection heq with ha hb
    exact absurd ha (by decide)
  · rfl

/-- Character inventory of a rendered integer. -/
theorem intChars_charClass (v : Int) : ∀ c ∈ intChars v, isDigitChar c = true ∨ c = '-' := by
  intro c hc
  rw [intChars] at hc
  split at hc
  · rcases List.mem_cons.mp hc with rfl | hm
    · exact Or.inr rfl
    · exact Or.inl (natChars_digits _ c hm)
  · exact Or.inl (natChars_digits _ c hc)

/-- Character inventory of a rendered Form-B token. -/
theorem renderTokB_charClass (t : ChanTok) :
    ∀ c ∈ renderTokB t,
      c = 'C' ∨ isDigitChar c = true ∨ c = ' ' ∨ c = ':' ∨ c = '=' ∨ c = '-' := by
  intro c hc
  simp only [renderTokB, List.mem_cons, List.mem_append, List.mem_replicate] at hc
  rcases hc with (((rfl | hnat) | ⟨-, rfl⟩) | rfl | ⟨-, rfl⟩) | hint
  · exact Or.inl rfl
  · exact Or.inr (Or.inl (natChars_digits _ c hnat))
  · exact Or.inr (Or.inr (Or.inl rfl))
  · cases t.sepColon <;> decide
  · exact Or.inr (Or.inr (Or.inl rfl))
  · rcases intChars_charClass t.val c hint with hd | rfl
    · exact Or.inr (Or.inl hd)
    · exact Or.inr (Or.inr (Or.inr (Or.inr (Or.inr rfl))))

/-- Membership in a single-space join. -/
theorem joinSpace_mem (ls : List (List Char)) :
    ∀ c ∈ joinSpace ls, c = ' ' ∨ ∃ l ∈ ls, c ∈ l := by
  induction ls with
  | nil => intro c hc; simp [joinSpace] at hc
  | cons x rest ih =>
    intro c hc
    cases rest with
    | nil =>
      exact Or.inr ⟨x, by simp, by simpa [joinSpace] using hc⟩
    | cons y ys =>
      rw [show joinSpace (x :: y :: ys) = x ++ ' ' :: joinSpace (y :: ys) from rfl] at hc
      rcases List.mem_append.mp hc with h1 | h2
      · exact Or.inr ⟨x, by simp, h1⟩
      · rcases List.mem_cons.mp h2 with rfl | h3
        · exact Or.inl rfl
        · rcases ih c h3 with h4 | ⟨l, hl, hcl⟩
          · exact Or.inl h4
          · exact Or.inr ⟨l, List.mem_cons_of_mem x hl, hcl⟩

/-- The Form-A collector stops on an exhausted line, whatever the fuel. -/
theorem findPairsAAux_nil (i : Fin 7) (fuel : ℕ) : findPairsAAux i fuel [] = [] := by
  cases fuel <;> rfl

/-- The Form-B collector stops on an exhausted line, whatever the fuel. -/
theorem findPairsBrAux_nil (fuel : ℕ) (pw : Bool) : findPairsBrAux fuel pw [] = [] := by
  cases fuel <;> rfl

/-- A rendered Form-A token is nonempty. -/
theorem renderTokA_ne_nil (i : Fin 7) (t : ChanTok) : renderTokA i t ≠ [] := by
  simp [renderTokA, boardChars]

/-- The Form-A collector over a rendered token list with enough fuel. -/
theorem findPairsAAux_render (i : Fin 7) (toks : List ChanTok) :
    ∀ fuel, (joinSpace (toks.map (renderTokA i))).length ≤ fuel →
      findPairsAAux i fuel (joinSpace (toks.map (renderTokA i))) = tokPairs toks := by
  induction toks with
  | nil =>
    intro fuel _
    rw [show joinSpace (List.map (renderTokA i) []) = [] from rfl, findPairsAAux_nil]
    rfl
  | cons t rest ih =>
    intro fuel hf
    obtain ⟨c, cs, hcc⟩ := List.exists_cons_of_ne_nil (renderTokA_ne_nil i t)
    have hlen1 : 1 ≤ (renderTokA i t).length := by rw [hcc]; simp
    cases rest with
    | nil =>
      rw [show joinSpace (List.map (renderTokA i) [t]) = renderTokA i t from rfl] at hf ⊢
      cases fuel with
      | zero => omega
      | succ f =>
        have hm : matchPairA i (renderTokA i t) = some (t.ch, t.val, []) := by
          have := matchPairA_render i t [] (by simp)
          rwa [List.append_nil] at this
        rw [hcc] at hm ⊢
        unfold findPairsAAux
        rw [hm]
        dsimp only
        rw [findPairsAAux_nil]
        rfl
    | cons r0 rs =>
      have hjoin : joinSpace (List.map (renderTokA i) (t :: r0 :: rs)) =
          renderTokA i t ++ ' ' :: joinSpace (List.map (renderTokA i) (r0 :: rs)) := rfl
      set L := joinSpace (List.map (renderTokA i) (r0 :: rs)) with hL
      rw [hjoin] at hf ⊢
      have hflen : (renderTokA i t).length + 1 + L.length ≤ fuel := by
        have : (renderTokA i t ++ ' ' :: L).length = (renderTokA i t).length + 1 + L.length := by
          simp; omega
        omega
      cases fuel with
      | zero => omega
      | succ f =>
        have hm : matchPairA i (renderTokA i t ++ ' ' :: L) = some (t.ch, t.val, ' ' :: L) :=
          matchPairA_render i t (' ' :: L) (by intro x hx; simp at hx; subst hx; decide)
        rw [hcc] at hm ⊢
        rw [show (c :: cs) ++ ' ' :: L = c :: (cs ++ ' ' :: L) from rfl] at hm ⊢
        unfold findPairsAAux
        rw [hm]
        dsimp only
        cases f with
        | zero => omega
        | succ f2 =>
          unfold findPairsAAux
          rw [matchPairA_none_head i ' ' L (by decide) (by decide)]
          dsimp only
          rw [ih f2 (by omega)]
          rfl

/-- A rendered Form-B token in explicit head form. -/
theorem renderTokB_head (t : ChanTok) :
    renderTokB t = 'C' :: (natChars t.ch ++ (List.replicate t.preSpaces ' ' ++
      sepChar t.sepColon :: (List.replicate t.postSpaces ' ' ++ intChars t.val))) := by
  simp [renderTokB]

/-- The Form-B collector over a rendered token list with enough fuel. -/
theorem findPairsBrAux_render (toks : List ChanTok) :
    ∀ fuel, (joinSpace (toks.map renderTokB)).length ≤ fuel →
      findPairsBrAux fuel false (joinSpace (toks.map renderTokB)) = tokPairs toks := by
  induction toks with
  | nil =>
    intro fuel _
    rw [show joinSpace (List.map renderTokB []) = [] from rfl, findPairsBrAux_nil]
    rfl
  | cons t rest ih =>
    intro fuel hf
    have hlen1 : 1 ≤ (renderTokB t).length := by rw [renderTokB_head]; simp
    cases rest with
    | nil =>
      rw [show joinSpace (List.map renderTokB [t]) = renderTokB t from rfl] at hf ⊢
      cases fuel with
      | zero => omega
      | succ f =>
        have hm : matchPairBr (renderTokB t) = some (t.ch, t.val, []) := by
          have := matchPairBr_render t [] (by simp)
          rwa [List.append_nil] at this
        rw [renderTokB_head] at hm ⊢
        unfold findPairsBrAux
        rw [if_pos rfl, hm]
        dsimp only
        rw [findPairsBrAux_nil]
        rfl
    | cons r0 rs =>
      have hjoin : joinSpace (List.map renderTokB (t :: r0 :: rs)) =
          renderTokB t ++ ' ' :: joinSpace (List.map renderTokB (r0 :: rs)) := rfl
      set L := joinSpace (List.map renderTokB (r0 :: rs)) with hL
      rw [hjoin] at hf ⊢
      have hflen : (renderTokB t).length + 1 + L.length ≤ fuel := by
        have : (renderTokB t ++ ' ' :: L).length = (renderTokB t).length + 1 + L.length := by
          simp; omega
        omega
      cases fuel with
      | zero => omega
      | succ f =>
        have hm : matchPairBr (renderTokB t ++ ' ' :: L) = some (t.ch, t.val, ' ' :: L) :=
          matchPairBr_render t (' ' :: L) (by intro x hx; simp at hx; subst hx; decide)
        rw [renderTokB_head] at hm ⊢
        rw [show ('C' :: (natChars t.ch ++ (List.replicate t.preSpaces ' ' ++
            sepChar t.sepColon :: (List.replicate t.postSpaces ' ' ++ intChars t.val)))) ++
            ' ' :: L = 'C' :: ((natChars t.ch ++ (List.replicate t.preSpaces ' ' ++
            sepChar t.sepColon :: (List.replicate t.postSpaces ' ' ++ intChars t.val))) ++
            ' ' :: L) from rfl] at hm ⊢
        unfold findPairsBrAux
        rw [if_pos rfl, hm]
        dsimp only
        cases f with
        | zero => omega
        | succ f2 =>
          unfold findPairsBrAux
          rw [if_neg (by decide)]
          rw [show isWordChar ' ' = false from rfl]
          rw [ih f2 (by omega)]
          rfl

/-- The Form-A pattern matches nowhere in a line free of `U`/`u`. -/
theorem matchFormAAt_none_of_chars (cs : List Char)
    (h : ∀ c ∈ cs, ¬ c = 'U' ∧ ¬ c = 'u') : ∀ n, matchFormAAt (cs.drop n) = none := by
  intro n
  cases hdrop : cs.drop n with
  | nil => rfl
  | cons a tl =>
    have ha : a ∈ cs := List.drop_subset n cs (by rw [hdrop]; exact List.mem_cons_self a tl)
    exact matchFormAAt_none_head a tl (h a ha).1 (h a ha).2

/-- No character after the bracket tag of a rendered Form-B line is `U`/`u`. -/
theorem renderLineB_tail_not_uno (toks : List ChanTok) :
    ∀ c ∈ (' ' :: joinSpace (toks.map renderTokB)), ¬ c = 'U' ∧ ¬ c = 'u' := by
  intro c hc
  rcases List.mem_cons.mp hc with rfl | h
  · exact ⟨by decide, by decide⟩
  · rcases joinSpace_mem _ c h with rfl | ⟨l, hl, hcl⟩
    · exact ⟨by decide, by decide⟩
    · obtain ⟨t, _, rfl⟩ := List.mem_map.mp hl
      rcases renderTokB_charClass t c hcl with rfl | hd | rfl | rfl | rfl | rfl
      · exact ⟨by decide, by decide⟩
      · exact ⟨isDigitChar_ne c 'U' hd (by decide), isDigitChar_ne c 'u' hd (by decide)⟩
      · exact ⟨by decide, by decide⟩
      · exact ⟨by decide, by decide⟩
      · exact ⟨by decide, by decide⟩
      · exact ⟨by decide, by decide⟩

/-- `strip` is the identity on a line with no leading or trailing space. -/
theorem stripChars_eq_self (cs : List Char)
    (h1 : ∀ c ∈ cs.take 1, isSpaceChar c = false)
    (h2 : ∀ c ∈ cs.reverse.take 1, isSpaceChar c = false) :
    stripChars cs = cs := by
  unfold stripChars
  rw [dropWhile_head_false _ _ h1, dropWhile_head_false _ _ h2, List.reverse_reverse]

/-- A rendered integer ends in a digit. -/
theorem intChars_concat (v : Int) : ∃ l d, intChars v = l ++ [d] ∧ isDigitChar d = true := by
  rw [intChars]
  split
  · obtain ⟨l, d, h1, h2⟩ := natChars_concat v.natAbs
    exact ⟨'-' :: l, d, by rw [h1]; rfl, h2⟩
  · exact natChars_concat v.toNat

/-- A rendered Form-A token ends in a digit. -/
theorem renderTokA_concat (i : Fin 7) (t : ChanTok) :
    ∃ l d, renderTokA i t = l ++ [d] ∧ isDigitChar d = true := by
  obtain ⟨l, d, h1, h2⟩ := intChars_concat t.val
  refine ⟨boardChars i ++ 'C' :: natChars t.ch ++ List.replicate t.preSpaces ' ' ++
    sepChar t.sepColon :: List.replicate t.postSpaces ' ' ++ l, d, ?_, h2⟩
  rw [renderTokA, h1]
  simp

/-- A rendered Form-B token ends in a digit. -/
theorem renderTokB_concat (t : ChanTok) :
    ∃ l d, renderTokB t = l ++ [d] ∧ isDigitChar d = true := by
  obtain ⟨l, d, h1, h2⟩ := intChars_concat t.val
  refine ⟨'C' :: natChars t.ch ++ List.replicate t.preSpaces ' ' ++
    sepChar t.sepColon :: List.replicate t.postSpaces ' ' ++ l, d, ?_, h2⟩
  rw [renderTokB, h1]
  simp

/-- A rendered Form-A line ends in a digit. -/
theorem renderLineA_concat (i : Fin 7) :
    ∀ (t : ChanTok) (rest : List ChanTok),
      ∃ l d, renderLineA i (t :: rest) = l ++ [d] ∧ isDigitChar d = true := by
  intro t rest
  induction rest generalizing t with
  | nil =>
    obtain ⟨l, d, h1, h2⟩ := renderTokA_concat i t
    exact ⟨l, d, by rw [show renderLineA i [t] = renderTokA i t from rfl, h1], h2⟩
  | cons r rs ih =>
    obtain ⟨l, d, h1, h2⟩ := ih r
    refine ⟨renderTokA i t ++ ' ' :: l, d, ?_, h2⟩
    rw [show renderLineA i (t :: r :: rs) =
      renderTokA i t ++ ' ' :: renderLineA i (r :: rs) from rfl, h1]
    simp

/-- A rendered Form-B token join ends in a digit. -/
theorem joinSpaceB_concat :
    ∀ (t : ChanTok) (ts : List ChanTok),
      ∃ l d, joinSpace ((t :: ts).map renderTokB) = l ++ [d] ∧ isDigitChar d = true := by
  intro t ts
  induction ts generalizing t with
  | nil =>
    obtain ⟨l, d, h1, h2⟩ := renderTokB_concat t
    exact ⟨l, d, by rw [show joinSpace ([t].map renderTokB) = renderTokB t from rfl, h1], h2⟩
  | cons r rs ih =>
    obtain ⟨l, d, h1, h2⟩ := ih r
    refine ⟨renderTokB t ++ ' ' :: l, d, ?_, h2⟩
    rw [show joinSpace ((t :: r :: rs).map renderTokB) =
      renderTokB t ++ ' ' :: joinSpace ((r :: rs).map renderTokB) from rfl, h1]
    simp

/-- A rendered Form-A line starts with `U`. -/
theorem renderLineA_cons_shape (i : Fin 7) (t : ChanTok) (rest : List ChanTok) :
    ∃ z, renderLineA i (t :: rest) = 'U' :: z := by
  cases rest with
  | nil =>
    exact ⟨_, by rw [show renderLineA i [t] = renderTokA i t from rfl,
      ← List.append_nil (renderTokA i t), renderTokA_cons]⟩
  | cons r rs =>
    exact ⟨_, by rw [show renderLineA i (t :: r :: rs) =
      renderTokA i t ++ ' ' :: renderLineA i (r :: rs) from rfl, renderTokA_cons]⟩

/-- A rendered Form-B token join starts with `C`. -/
theorem joinSpaceB_shape (t : ChanTok) (ts : List ChanTok) :
    ∃ z, joinSpace ((t :: ts).map renderTokB) = 'C' :: z := by
  cases ts with
  | nil =>
    exact ⟨_, by rw [show joinSpace ([t].map renderTokB) = renderTokB t from rfl,
      renderTokB_head]⟩
  | cons r rs =>
    exact ⟨_, by rw [show joinSpace ((t :: r :: rs).map renderTokB) =
      renderTokB t ++ ' ' :: joinSpace ((r :: rs).map renderTokB) from rfl, renderTokB_cons]⟩

/-- The Form-A search over a rendered Form-A line finds its board. -/
theorem searchFormA_renderLineA (i : Fin 7) (t : ChanTok) (rest : List ChanTok) :
    searchFormA false (renderLineA i (t :: rest)) = some i := by
  obtain ⟨z, hz⟩ := renderLineA_cons_shape i t rest
  have hm : matchFormAAt (renderLineA i (t :: rest)) = some i := by
    cases rest with
    | nil =>
      have := matchFormAAt_render i t [] (by simp)
      rw [List.append_nil] at this
      exact this
    | cons r rs =>
      rw [show renderLineA i (t :: r :: rs) =
        renderTokA i t ++ ' ' :: renderLineA i (r :: rs) from rfl]
      exact matchFormAAt_render i t _ (by intro x hx; simp at hx; subst hx; decide)
  rw [hz] at hm ⊢
  exact searchFormA_head _ _ _ hm

/-- The Form-A search finds nothing in a rendered Form-B line. -/
theorem searchFormA_renderLineB (i : Fin 7) (toks : List ChanTok) :
    searchFormA false (renderLineB i toks) = none := by
  cases toks with
  | nil => fin_cases i <;> decide
  | cons t ts =>
    apply searchFormA_none
    intro n
    have htail := renderLineB_tail_not_uno (t :: ts)
    have hd : isDigitChar (Char.ofNat (48 + i.val)) = true :=
      digitChar_isDigit i.val (by omega)
    rcases n with _ | _ | _ | _ | _ | _ | m
    · exact matchFormAAt_none_head '[' _ (by decide) (by decide)
    · exact matchFormAAt_rbrack i _
    · exact matchFormAAt_none_head 'N' _ (by decide) (by decide)
    · exact matchFormAAt_none_head 'O' _ (by decide) (by decide)
    · exact matchFormAAt_none_head (Char.ofNat (48 + i.val)) _
        (isDigitChar_ne _ 'U' hd (by decide)) (isDigitChar_ne _ 'u' hd (by decide))
    · exact matchFormAAt_none_head ']' _ (by decide) (by decide)
    · exact matchFormAAt_none_of_chars _ htail m

/-- The bracket search over a rendered Form-B line finds its board. -/
theorem matchBracketAt_renderLineB (i : Fin 7) (toks : List ChanTok) :
    matchBracketAt (renderLineB i toks) = some i := by
  unfold matchBracketAt renderLineB
  dsimp only
  rw [if_pos rfl]
  rw [List.dropWhile_cons_of_neg (by decide)]
  rw [matchUnoAtTag]
  dsimp only
  rw [List.dropWhile_cons_of_neg (by decide)]
  dsimp only
  rw [if_pos rfl]

/-- Stripping the bracket tag from a rendered Form-B line leaves the joined
tokens (or nothing). -/
theorem subBracketTag_renderLineB (i : Fin 7) (toks : List ChanTok) :
    subBracketTag i (renderLineB i toks) =
      (match toks with
       | [] => ([] : List Char)
       | _ :: _ => joinSpace (toks.map renderTokB)) := by
  cases toks with
  | nil => fin_cases i <;> rfl
  | cons t ts =>
    obtain ⟨z, hz⟩ := joinSpaceB_shape t ts
    unfold subBracketTag
    rw [show renderLineB i (t :: ts) = '[' :: 'U' :: 'N' :: 'O' :: Char.ofNat (48 + i.val) ::
      ']' :: ' ' :: joinSpace ((t :: ts).map renderTokB) from rfl]
    rw [List.dropWhile_cons_of_neg (by decide)]
    dsimp only
    rw [if_pos rfl]
    rw [List.dropWhile_cons_of_neg (by decide)]
    rw [matchUnoAtTag]
    dsimp only
    rw [if_pos rfl]
    rw [List.dropWhile_cons_of_neg (by decide)]
    dsimp only
    rw [if_pos rfl]
    rw [List.dropWhile_cons_of_pos (by decide)]
    rw [hz]
    rw [List.dropWhile_cons_of_neg (by decide)]

/-- A rendered Form-B line with tokens ends in a digit. -/
theorem renderLineB_concat (i : Fin 7) (t : ChanTok) (ts : List ChanTok) :
    ∃ l d, renderLineB i (t :: ts) = l ++ [d] ∧ isDigitChar d = true := by
  obtain ⟨l, d, h1, h2⟩ := joinSpaceB_concat t ts
  refine ⟨'[' :: 'U' :: 'N' :: 'O' :: Char.ofNat (48 + i.val) :: ']' :: ' ' :: l, d, ?_, h2⟩
  rw [show renderLineB i (t :: ts) = '[' :: 'U' :: 'N' :: 'O' :: Char.ofNat (48 + i.val) ::
    ']' :: ' ' :: joinSpace ((t :: ts).map renderTokB) from rfl, h1]
  rfl

/-- `_parse` on a rendered Form-A line: the board of the tokens and exactly
their channel/value pairs. -/
theorem parse_renderLineA (i : Fin 7) (toks : List ChanTok) (h : toks ≠ []) :
    parseLine (renderLineA i toks) = some ⟨i, buildDict (tokPairs toks)⟩ := by
  obtain ⟨t, rest, rfl⟩ := List.exists_cons_of_ne_nil h
  obtain ⟨z, hz⟩ := renderLineA_cons_shape i t rest
  obtain ⟨l, d, hl, hd⟩ := renderLineA_concat i t rest
  have hstrip : stripChars (renderLineA i (t :: rest)) = renderLineA i (t :: rest) := by
    apply stripChars_eq_self
    · rw [hz]; intro c hc; simp at hc; subst hc; decide
    · rw [hl]; intro c hc; simp at hc; subst hc; exact isDigitChar_not_space c hd
  have hne : renderLineA i (t :: rest) ≠ [] := by rw [hz]; simp
  unfold parseLine
  rw [hstrip, if_neg hne, searchFormA_renderLineA i t rest]
  dsimp only
  rw [show findPairsA i (renderLineA i (t :: rest)) = tokPairs (t :: rest) from
    findPairsAAux_render i (t :: rest) _ (le_refl _)]

/-- `_parse` on a rendered Form-B line: the bracket board and exactly the
tokens' channel/value pairs (an empty token list gives an empty map). -/
theorem parse_renderLineB (i : Fin 7) (toks : List ChanTok) :
    parseLine (renderLineB i toks) = some ⟨i, buildDict (tokPairs toks)⟩ := by
  cases toks with
  | nil => fin_cases i <;> decide
  | cons t ts =>
    have hB : renderLineB i (t :: ts) = '[' :: 'U' :: 'N' :: 'O' :: Char.ofNat (48 + i.val) ::
      ']' :: ' ' :: joinSpace ((t :: ts).map renderTokB) := rfl
    obtain ⟨l, d, hl, hd⟩ := renderLineB_concat i t ts
    have hstrip : stripChars (renderLineB i (t :: ts)) = renderLineB i (t :: ts) := by
      apply stripChars_eq_self
      · rw [hB]; intro c hc; simp at hc; subst hc; decide
      · rw [hl]; intro c hc; simp at hc; subst hc; exact isDigitChar_not_space c hd
    have hne : renderLineB i (t :: ts) ≠ [] := by rw [hB]; simp
    unfold parseLine
    rw [hstrip, if_neg hne, searchFormA_renderLineB i (t :: ts)]
    dsimp only
    rw [searchBracket_head _ i (matchBracketAt_renderLineB i (t :: ts))]
    dsimp only
    rw [subBracketTag_renderLineB i (t :: ts)]
    dsimp only
    rw [show findPairsBr (joinSpace ((t :: ts).map renderTokB)) = tokPairs (t :: ts) from
      findPairsBrAux_render (t :: ts) _ (le_refl _)]

/-- `_parse` yields no reading when neither search pattern matches the
stripped line. -/
theorem parse_unmatched (cs : List Char)
    (h1 : searchFormA false (stripChars cs) = none)
    (h2 : searchBracket (stripChars cs) = none) :
    parseLine cs = none := by
  unfold parseLine
  by_cases hnil : stripChars cs = []
  · rw [if_pos hnil]
  · rw [if_neg hnil, h1]
    dsimp only
    rw [h2]

/-- The file-backed lookup touches only `last_day_cache`. -/
theorem getLastFromFilesSrc_fields (st : LoggerStateSrc) (d today : Int) :
    (getLastFromFilesSrc st d today).1.store = st.store ∧
    (getLastFromFilesSrc st d today).1.notificationSent = st.notificationSent ∧
    (getLastFromFilesSrc st d today).1.thresholdLoadedAt = st.thresholdLoadedAt := by
  unfold getLastFromFilesSrc
  dsimp only
  repeat' split
  all_goals exact ⟨rfl, rfl, rfl⟩

/-- `_get_last_pressure_log` touches only `last_day_cache`. -/
theorem getLastPressureLogSrc_fields (st : LoggerStateSrc) (d today : Int) :
    (getLastPressureLogSrc st d today).1.store = st.store ∧
    (getLastPressureLogSrc st d today).1.notificationSent = st.notificationSent ∧
    (getLastPressureLogSrc st d today).1.thresholdLoadedAt = st.thresholdLoadedAt := by
  unfold getLastPressureLogSrc
  repeat' split
  all_goals first
    | exact ⟨rfl, rfl, rfl⟩
    | exact getLastFromFilesSrc_fields st d today

/-- A refresh that returns leaves the store and the sent flags alone. -/
theorem refreshThresholdSrc_ok_fields (force : Bool) (now : DateTime)
    (fo : FetchOutcome) (st st1 : LoggerStateSrc)
    (h : refreshThresholdSrc force now fo st = Except.ok st1) :
    st1.store = st.store ∧ st1.notificationSent = st.notificationSent := by
  unfold refreshThresholdSrc at h
  split at h
  · injection h with h2
    subst h2
    exact ⟨rfl, rfl⟩
  · cases fo with
    | err => injection h with h2; subst h2; exact ⟨rfl, rfl⟩
    | noPatient => injection h with h2; subst h2; exact ⟨rfl, rfl⟩
    | patient p => exact Except.noConfusion h

/-- `_open_daycache` can only raise `TypeError` (the fresh-constructor call
site). -/
theorem openDaycacheSrc_error (store : List (Int × DayCacheSrc)) (d : Int) (e : PyErr)
    (h : openDaycacheSrc store d = Except.error e) : e = PyErr.typeError := by
  unfold openDaycacheSrc at h
  split at h
  · exact Except.noConfusion h
  · injection h with h2
    exact h2.symm

/-- Claim C2: against the checked-in collaborator classes, `_log_locally`
raises on every control path — the fresh `DayCache` constructor
(`TypeError`), the reuse path's `last_log.elbow` read (`AttributeError`),
the new-session `PressureCache` constructor (`TypeError`) or
`_threshold_from_patient` (`AttributeError`) — so no stream of observations
of any length ever produces a cache entry, let alone one holding
`(N−1)·Δt` accumulated seconds; nothing is saved and the store never
changes. -/
theorem C2_no_observation_is_ever_logged :
    ∀ (st : LoggerStateSrc) (o : StepOracle) (time : DateTime)
      (posture : PostureDetectionResult),
      (∃ e, (logLocallySrc st o time posture).result = Except.error e) ∧
      (logLocallySrc st o time posture).saved = false ∧
      (logLocallySrc st o time posture).state.store = st.store := by
  intro st o time posture
  unfold logLocallySrc
  cases hre : refreshThresholdSrc false time o.fo1 st with
  | error e => exact ⟨⟨e, rfl⟩, rfl, rfl⟩
  | ok st1 =>
    have hs1 := (refreshThresholdSrc_ok_fields false time o.fo1 st st1 hre).1
    have hs2 := (getLastPressureLogSrc_fields st1 time.day time.day).1
    dsimp only
    cases hod : openDaycacheSrc (getLastPressureLogSrc st1 time.day time.day).1.store
        time.day with
    | error e => exact ⟨⟨e, rfl⟩, rfl, hs2.trans hs1⟩
    | ok dc =>
      cases hlk : (getLastPressureLogSrc st1 time.day time.day).2 with
      | none => exact ⟨⟨PyErr.typeError, rfl⟩, rfl, hs2.trans hs1⟩
      | some p =>
        obtain ⟨idx, last⟩ := p
        dsimp only
        split
        · exact ⟨⟨PyErr.attributeError, rfl⟩, rfl, hs2.trans hs1⟩
        · exact ⟨⟨PyErr.typeError, rfl⟩, rfl, hs2.trans hs1⟩

/-- Claim C3: a day-rollover observation crashes before any rollover
handling. With the cooldown-respecting refresh returning and the most
recent cached entry dated a different day, `_log_locally` raises
`TypeError` (in `_open_daycache`'s fresh constructor, or in the new-session
`PressureCache` constructor at lines 268–278) — before the forced refresh
(line 295), the flag reset (line 296), the day totals, the append and the
save — so the notification-sent flags are untouched, the load timestamp is
the one the cooldown-respecting refresh wrote, nothing is persisted, and no
zero-second session entry is created anywhere. -/
theorem C3_day_rollover_crashes (st st1 : LoggerStateSrc) (o : StepOracle)
    (time : DateTime) (posture : PostureDetectionResult)
    (idx : ℕ) (last : PressureCacheSrc)
    (hre : refreshThresholdSrc false time o.fo1 st = Except.ok st1)
    (hlast : (getLastPressureLogSrc st1 time.day time.day).2 = some (idx, last))
    (hdif : last.time.day ≠ time.day) :
    (logLocallySrc st o time posture).result = Except.error PyErr.typeError ∧
    (logLocallySrc st o time posture).state.notificationSent = st.notificationSent ∧
    (logLocallySrc st o time posture).state.thresholdLoadedAt = st1.thresholdLoadedAt ∧
    (logLocallySrc st o time posture).saved = false ∧
    (logLocallySrc st o time posture).notifyCalls = 0 := by
  have hns1 := (refreshThresholdSrc_ok_fields false time o.fo1 st st1 hre).2
  have hf := getLastPressureLogSrc_fields st1 time.day time.day
  unfold logLocallySrc
  rw [hre]
  dsimp only
  rw [hlast]
  cases hod : openDaycacheSrc (getLastPressureLogSrc st1 time.day time.day).1.store
      time.day with
  | error e =>
    have he := openDaycacheSrc_error _ _ _ hod
    subst he
    exact ⟨rfl, hf.2.1.trans hns1, hf.2.2, rfl, rfl⟩
  | ok dc =>
    dsimp only
    rw [if_neg (fun hand => hdif hand.1)]
    exact ⟨rfl, hf.2.1.trans hns1, hf.2.2, rfl, rfl⟩

/-- Claim C4: the notification pathway is unreachable, and its sender could
never report success anyway. Every `_log_locally` call raises before
line 318, so `_trigger_notifications` never runs: no observation — however
far its accumulated seconds exceed any threshold — ever invokes
`send_notification`, and the sent flags never change. Independently,
`send_notification` itself (`notification_manager.py` lines 44–60) has no
`return` statement, so the `sent` value `_trigger_notifications` tests at
line 139 would always be `None` — falsy — and the flags could not be marked
even on a reached, successful send. -/
theorem C4_notifications_never_fire :
    (∀ (st : LoggerStateSrc) (o : StepOracle) (time : DateTime)
      (posture : PostureDetectionResult),
      (logLocallySrc st o time posture).notifyCalls = 0 ∧
      (logLocallySrc st o time posture).state.notificationSent = st.notificationSent ∧
      (logLocallySrc st o time posture).result.isOk = false) ∧
    (∀ (d : Int) (a b c e f : Bool),
      sendNotificationSrc d a b c e f = none ∧
      isTruthy (sendNotificationSrc d a b c e f) = false) := by
  refine ⟨?_, fun d a b c e f => ⟨rfl, rfl⟩⟩
  intro st o time posture
  unfold logLocallySrc
  cases hre : refreshThresholdSrc false time o.fo1 st with
  | error e => exact ⟨rfl, rfl, rfl⟩
  | ok st1 =>
    have hns1 := (refreshThresholdSrc_ok_fields false time o.fo1 st st1 hre).2
    have hns2 := (getLastPressureLogSrc_fields st1 time.day time.day).2.1
    dsimp only
    cases hod : openDaycacheSrc (getLastPressureLogSrc st1 time.day time.day).1.store
        time.day with
    | error e => exact ⟨rfl, hns2.trans hns1, rfl⟩
    | ok dc =>
      cases hlk : (getLastPressureLogSrc st1 time.day time.day).2 with
      | none => exact ⟨rfl, hns2.trans hns1, rfl⟩
      | some p =>
        obtain ⟨idx, last⟩ := p
        dsimp only
        split
        · exact ⟨rfl, hns2.trans hns1, rfl⟩
        · exact ⟨rfl, hns2.trans hns1, rfl⟩

/-- Claim C1: `_upload_to_server` never reaches the remote store. For every
day cache and whatever the store would answer, it returns `False` having
made no remote call: the empty-cache guard returns at line 363, and
otherwise `_convert_to_daylog` raises at line 327 inside the blanket `try`,
whose handler returns `False` — `update_daylog` is never invoked, so the
claimed echo→create fallback (and any `True` return) is unrealizable. -/
theorem C1_upload_never_reaches_the_store :
    ∀ (dc : DayCacheSrc) (o : UploadOracle),
      uploadToServerSrc dc o = ⟨false, []⟩ := by
  intro dc o
  unfold uploadToServerSrc
  split <;> rfl

/-- Claim C5: for classifier class 0, only the both-legs branch of `detect`
returns (plain supine, every region flag set, both heels kept); the one-leg
and the no-leg branches assign the enum members `SUPINE_RIGHT` /
`SUPINE_LEFT` / `SUPINE_BOTH`, which the checked-in `PostureType` does not
define, and raise `AttributeError` instead of returning a refined result. -/
theorem C5_supine_variants_raise :
    (∀ ub f, detectFromPrediction 0 ub true true f =
      Except.ok ⟨PostureType.supine, true, true, true, true, true, true, true⟩) ∧
    (∀ ub f, detectFromPrediction 0 ub false true f = Except.error PyErr.attributeError) ∧
    (∀ ub f, detectFromPrediction 0 ub true false f = Except.error PyErr.attributeError) ∧
    (∀ ub f, detectFromPrediction 0 ub false false f = Except.error PyErr.attributeError) := by
  refine ⟨fun ub f => ?_, fun ub f => ?_, fun ub f => ?_, fun ub f => ?_⟩ <;>
    cases ub <;> cases f <;> rfl

/-- Claim C3 witness: a concrete store holding one day-4 cache with one
supine entry, probed by a day-5 observation. -/
theorem C3_day_rollover_crashes_witness :
    (logLocallySrc
        ⟨defaultThreshold, notifAllFalse, none, false, none,
          [(4, ⟨4, 4, 0, 0, 0, 0, 0, 0, 0,
            [⟨1, ⟨4, 0⟩, ⟨4, 0⟩, 0, 0, 0, 0, 0, 0, 0, PostureType.supine, false⟩],
            false⟩)]⟩
        ⟨FetchOutcome.err, FetchOutcome.err, none⟩ ⟨5, 100⟩
        ⟨PostureType.supine, true, true, true, true, true, true, true⟩).result =
      Except.error PyErr.typeError :=
  (C3_day_rollover_crashes
      ⟨defaultThreshold, notifAllFalse, none, false, none,
        [(4, ⟨4, 4, 0, 0, 0, 0, 0, 0, 0,
          [⟨1, ⟨4, 0⟩, ⟨4, 0⟩, 0, 0, 0, 0, 0, 0, 0, PostureType.supine, false⟩],
          false⟩)]⟩
      ⟨defaultThreshold, notifAllFalse, some ⟨5, 100⟩, false, none,
        [(4, ⟨4, 4, 0, 0, 0, 0, 0, 0, 0,
          [⟨1, ⟨4, 0⟩, ⟨4, 0⟩, 0, 0, 0, 0, 0, 0, 0, PostureType.supine, false⟩],
          false⟩)]⟩
      ⟨FetchOutcome.err, FetchOutcome.err, none⟩ ⟨5, 100⟩
      ⟨PostureType.supine, true, true, true, true, true, true, true⟩
      0
      ⟨1, ⟨4, 0⟩, ⟨4, 0⟩, 0, 0, 0, 0, 0, 0, 0, PostureType.supine, false⟩
      rfl (by decide) (by decide)).1

/-- Whitespace differs from every non-whitespace character. -/
theorem isSpaceChar_ne (c x : Char) (h : isSpaceChar c = true)
    (hx : isSpaceChar x = false) : ¬ c = x := by
  intro hc; rw [hc, hx] at h; exact Bool.noConfusion h

/-- Whitespace is not a word character. -/
theorem space_not_word (c : Char) (h : isSpaceChar c = true) : isWordChar c = false := by
  have hcs := h
  simp only [isSpaceChar, Bool.or_eq_true, decide_eq_true_eq] at hcs
  rcases hcs with ((((rfl | rfl) | rfl) | rfl) | rfl) | rfl <;> decide

/-- `dropWhile` never lengthens a list. -/
theorem dropWhile_length_le {α : Type} (p : α → Bool) (l : List α) :
    (l.dropWhile p).length ≤ l.length := by
  induction l with
  | nil => simp
  | cons a t ih =>
    rw [List.dropWhile_cons]
    split
    · simp; omega
    · simp

/-- A nonempty satisfied prefix makes `dropWhile` strictly shorter. -/
theorem dropWhile_length_lt {α : Type} (p : α → Bool) (l : List α)
    (h : l.takeWhile p ≠ []) : (l.dropWhile p).length < l.length := by
  cases l with
  | nil => simp at h
  | cons a t =>
    cases hpa : p a with
    | false => rw [List.takeWhile_cons, hpa] at h; simp at h
    | true =>
      rw [List.dropWhile_cons, hpa]
      have := dropWhile_length_le p t
      simp
      omega

/-- A strictly shrinking `dropWhile` pins a satisfied head. -/
theorem dropWhile_shrink_head {α : Type} (p : α → Bool) (l : List α)
    (h : (l.dropWhile p).length < l.length) : ∃ a t, l = a :: t ∧ p a = true := by
  cases l with
  | nil => simp at h
  | cons a t =>
    cases hpa : p a with
    | false => rw [List.dropWhile_cons, hpa] at h; simp at h
    | true => exact ⟨a, t, rfl, hpa⟩

/-- `matchUno` consumes exactly four characters. -/
theorem matchUno_rest (cs : List Char) (i : Fin 7) (r : List Char)
    (h : matchUno cs = some (i, r)) : r = cs.drop 4 := by
  cases cs with
  | nil => exact Option.noConfusion h
  | cons u t1 =>
    cases t1 with
    | nil => exact Option.noConfusion h
    | cons n t2 =>
      cases t2 with
      | nil => exact Option.noConfusion h
      | cons o t3 =>
        cases t3 with
        | nil => exact Option.noConfusion h
        | cons d rest =>
          simp only [matchUno] at h
          split at h
          · split at h
            · injection h with h2
              injection h2 with h3 h4
              rw [← h4]
              rfl
            · exact Option.noConfusion h
          · exact Option.noConfusion h

/-- The characters a successful `matchUno` consumed. -/
theorem matchUno_chars (cs : List Char) (i : Fin 7) (r : List Char)
    (h : matchUno cs = some (i, r)) :
    ∃ u n o d, cs = u :: n :: o :: d :: r ∧ (u = 'U' ∨ u = 'u') ∧
      (n = 'N' ∨ n = 'n') ∧ (o = 'O' ∨ o = 'o') ∧ isDigitChar d = true := by
  cases cs with
  | nil => exact Option.noConfusion h
  | cons u t1 =>
    cases t1 with
    | nil => exact Option.noConfusion h
    | cons n t2 =>
      cases t2 with
      | nil => exact Option.noConfusion h
      | cons o t3 =>
        cases t3 with
        | nil => exact Option.noConfusion h
        | cons d rest =>
          simp only [matchUno] at h
          split at h
          · next hcond =>
            split at h
            · injection h with h2
              injection h2 with h3 h4
              subst h4
              simp only [Bool.and_eq_true, Bool.or_eq_true, decide_eq_true_eq] at hcond
              exact ⟨u, n, o, d, rfl, hcond.1.1.1.1, hcond.1.1.1.2, hcond.1.1.2, hcond.1.2⟩
            · exact Option.noConfusion h
          · exact Option.noConfusion h

/-- The Form-A pattern needs an underscore right after the board tag. -/
theorem matchFormAAt_no_underscore_after (cs : List Char) (i : Fin 7) (r : List Char)
    (hmu : matchUno cs = some (i, r))
    (hr : r = [] ∨ ∃ a t, r = a :: t ∧ ¬ a = '_') : matchFormAAt cs = none := by
  unfold matchFormAAt
  rw [hmu]
  dsimp only
  rcases hr with rfl | ⟨a, t, rfl, ha⟩
  · rfl
  · split
    · next c r3 heq =>
      injection heq with h1 h2
      exact absurd h1 ha
    · rfl

/-- The Form-A pattern matches nowhere in an underscore-free line. -/
theorem matchFormAAt_none_no_underscore (cs : List Char)
    (h : ∀ c ∈ cs, ¬ c = '_') : ∀ n, matchFormAAt (cs.drop n) = none := by
  intro n
  cases hmu : matchUno (cs.drop n) with
  | none => unfold matchFormAAt; rw [hmu]
  | some pr =>
    obtain ⟨i, r⟩ := pr
    have hrdrop : r = cs.drop (n + 4) := by
      rw [matchUno_rest _ _ _ hmu, List.drop_drop]
    apply matchFormAAt_no_underscore_after _ _ _ hmu
    cases hdr : cs.drop (n + 4) with
    | nil => exact Or.inl (hrdrop.trans hdr)
    | cons a t =>
      refine Or.inr ⟨a, t, hrdrop.trans hdr, ?_⟩
      exact h a (List.drop_subset (n + 4) cs (by rw [hdr]; exact List.mem_cons_self a t))

/-- The Form-A search fails on an underscore-free line. -/
theorem searchFormA_none_no_underscore (cs : List Char)
    (h : ∀ c ∈ cs, ¬ c = '_') : searchFormA false cs = none :=
  searchFormA_none cs false (matchFormAAt_none_no_underscore cs h)

/-- `matchNeg` never lengthens its input. -/
theorem matchNeg_length (cs : List Char) : (matchNeg cs).2.length ≤ cs.length := by
  cases cs with
  | nil => simp [matchNeg]
  | cons c t =>
    unfold matchNeg
    dsimp only
    split
    · simp
    · simp

/-- `matchNeg` consumes at most a leading minus sign. -/
theorem matchNeg_decomp (cs : List Char) :
    ∃ np, cs = np ++ (matchNeg cs).2 ∧ ∀ c ∈ np, c = '-' := by
  cases cs with
  | nil => exact ⟨[], rfl, by simp⟩
  | cons c t =>
    unfold matchNeg
    dsimp only
    split
    · next hc => subst hc; exact ⟨['-'], rfl, by simp⟩
    · exact ⟨[], rfl, by simp⟩

/-- The separator/value scanner consumes at least the separator and one
digit. -/
theorem scanSepValue_length (cs : List Char) (v : Int) (r : List Char)
    (h : scanSepValue cs = some (v, r)) : r.length < cs.length := by
  simp only [scanSepValue] at h
  split at h
  · next s r6 heq =>
    split at h
    · split at h
      · exact Option.noConfusion h
      · next hvs =>
        injection h with h2
        injection h2 with hv hr
        have h1 : r.length < (matchNeg (r6.dropWhile isSpaceChar)).2.length := by
          rw [← hr]
          exact dropWhile_length_lt _ _ hvs
        have h2 := matchNeg_length (r6.dropWhile isSpaceChar)
        have h3 := dropWhile_length_le isSpaceChar r6
        have h4 : r6.length < (cs.dropWhile isSpaceChar).length := by rw [heq]; simp
        have h5 := dropWhile_length_le isSpaceChar cs
        omega
    · exact Option.noConfusion h
  · exact Option.noConfusion h

/-- The characters the separator/value scanner consumed: whitespace, one
separator, an optional minus and digits. -/
theorem scanSepValue_decomp (cs : List Char) (v : Int) (r : List Char)
    (h : scanSepValue cs = some (v, r)) :
    ∃ pre, cs = pre ++ r ∧ ∀ c ∈ pre,
      isSpaceChar c = true ∨ c = ':' ∨ c = '=' ∨ c = '-' ∨ isDigitChar c = true := by
  simp only [scanSepValue] at h
  split at h
  · next s r6 heq =>
    split at h
    · next hsep =>
      split at h
      · exact Option.noConfusion h
      · next hvs =>
        injection h with h2
        injection h2 with hv hr
        obtain ⟨np, hnp, hnpm⟩ := matchNeg_decomp (r6.dropWhile isSpaceChar)
        generalize hM : (matchNeg (r6.dropWhile isSpaceChar)).2 = m2 at hnp hr hvs
        have e1 : m2 = m2.takeWhile isDigitChar ++ r := by
          conv_lhs => rw [← List.takeWhile_append_dropWhile isDigitChar m2]
          rw [hr]
        have e2 : r6 = r6.takeWhile isSpaceChar ++ (np ++ m2) := by
          conv_lhs => rw [← List.takeWhile_append_dropWhile isSpaceChar r6]
          rw [hnp]
        have e3 : cs = cs.takeWhile isSpaceChar ++ (s :: r6) := by
          conv_lhs => rw [← List.takeWhile_append_dropWhile isSpaceChar cs]
          rw [heq]
        refine ⟨cs.takeWhile isSpaceChar ++ s :: (r6.takeWhile isSpaceChar ++
          (np ++ m2.takeWhile isDigitChar)), ?_, ?_⟩
        · calc cs = cs.takeWhile isSpaceChar ++ (s :: r6) := e3
            _ = cs.takeWhile isSpaceChar ++
                (s :: (r6.takeWhile isSpaceChar ++ (np ++ m2))) :=
              congrArg (fun z => cs.takeWhile isSpaceChar ++ (s :: z)) e2
            _ = cs.takeWhile isSpaceChar ++ (s :: (r6.takeWhile isSpaceChar ++
                (np ++ (m2.takeWhile isDigitChar ++ r)))) :=
              congrArg (fun z => cs.takeWhile isSpaceChar ++
                (s :: (r6.takeWhile isSpaceChar ++ (np ++ z)))) e1
            _ = (cs.takeWhile isSpaceChar ++ s :: (r6.takeWhile isSpaceChar ++
                (np ++ m2.takeWhile isDigitChar))) ++ r := by
              simp [List.append_assoc]
        · intro c hc
          simp only [List.mem_append, List.mem_cons] at hc
          rcases hc with hc | rfl | hc | hc | hc
          · exact Or.inl (List.mem_takeWhile_imp hc)
          · simp only [Bool.or_eq_true, decide_eq_true_eq] at hsep
            rcases hsep with rfl | rfl
            · exact Or.inr (Or.inl rfl)
            · exact Or.inr (Or.inr (Or.inl rfl))
          · exact Or.inl (List.mem_takeWhile_imp hc)
          · exact Or.inr (Or.inr (Or.inr (Or.inl (hnpm c hc))))
          · exact Or.inr (Or.inr (Or.inr (Or.inr (List.mem_takeWhile_imp hc))))
    · exact Option.noConfusion h
  · exact Option.noConfusion h

/-- A spec Form-A token is matched identically by the source's collection
pattern for its own board. -/
theorem matchPairA_of_specTokenA (cs : List Char) (i : Fin 7) (ch : ℕ) (v : Int)
    (rest : List Char) (h : specTokenA cs = some ((i, ch, v), rest)) :
    matchPairA i cs = some (ch, v, rest) := by
  unfold specTokenA at h
  unfold matchPairA
  cases hmu : matchUno cs with
  | none => rw [hmu] at h; exact Option.noConfusion h
  | some pr =>
    obtain ⟨j, r1⟩ := pr
    rw [hmu] at h
    dsimp only at h ⊢
    split at h
    · next x c r2 =>
      split at h
      · next hc =>
        split at h
        · exact Option.noConfusion h
        · next hds =>
          cases hsv : scanSepValue (r2.dropWhile isDigitChar) with
          | none => rw [hsv] at h; exact Option.noConfusion h
          | some pv =>
            obtain ⟨v2, r7⟩ := pv
            rw [hsv] at h
            dsimp only at h
            injection h with h2
            injection h2 with h3 h4
            injection h3 with h5 h6
            injection h6 with h7 h8
            subst h5
            subst h7
            subst h8
            subst h4
            rw [if_pos rfl]
            dsimp only
            rw [if_pos hc]
            rw [if_neg hds]
      · exact Option.noConfusion h
    · exact Option.noConfusion h

/-- A spec Form-A token followed by a word boundary is found by the source's
search pattern. -/
theorem matchFormAAt_of_specTokenA (cs : List Char) (i : Fin 7) (ch : ℕ) (v : Int)
    (rest : List Char) (h : specTokenA cs = some ((i, ch, v), rest))
    (hb : boundaryOk rest = true) : matchFormAAt cs = some i := by
  unfold specTokenA at h
  unfold matchFormAAt
  cases hmu : matchUno cs with
  | none => rw [hmu] at h; exact Option.noConfusion h
  | some pr =>
    obtain ⟨j, r1⟩ := pr
    rw [hmu] at h
    dsimp only at h ⊢
    split at h
    · next x c r2 =>
      split at h
      · next hc =>
        split at h
        · exact Option.noConfusion h
        · next hds =>
          cases hsv : scanSepValue (r2.dropWhile isDigitChar) with
          | none => rw [hsv] at h; exact Option.noConfusion h
          | some pv =>
            obtain ⟨v2, r7⟩ := pv
            rw [hsv] at h
            dsimp only at h
            injection h with h2
            injection h2 with h3 h4
            injection h3 with h5 h6
            subst h5
            subst h4
            rw [if_pos hc]
            rw [if_neg hds]
            dsimp only
            rw [if_pos hb]
      · exact Option.noConfusion h
    · exact Option.noConfusion h

/-- A spec Form-A token consumes at least one character. -/
theorem specTokenA_length (cs : List Char) (p : Fin 7 × ℕ × Int) (rest : List Char)
    (h : specTokenA cs = some (p, rest)) : rest.length < cs.length := by
  unfold specTokenA at h
  cases hmu : matchUno cs with
  | none => rw [hmu] at h; exact Option.noConfusion h
  | some pr =>
    obtain ⟨j, r1⟩ := pr
    rw [hmu] at h
    dsimp only at h
    obtain ⟨u, n, o, d, hcs, -, -, -, -⟩ := matchUno_chars cs j r1 hmu
    split at h
    · next x c r2 =>
      split at h
      · split at h
        · exact Option.noConfusion h
        · cases hsv : scanSepValue (r2.dropWhile isDigitChar) with
          | none => rw [hsv] at h; exact Option.noConfusion h
          | some pv =>
            obtain ⟨v2, r7⟩ := pv
            rw [hsv] at h
            dsimp only at h
            injection h with h2
            injection h2 with h3 h4
            subst h4
            have h5 := scanSepValue_length _ _ _ hsv
            have h6 := dropWhile_length_le isDigitChar r2
            have h7 : cs.length = r2.length + 6 := by rw [hcs]; simp
            omega
      · exact Option.noConfusion h
    · exact Option.noConfusion h

/-- The source's Form-A collection pattern consumes at least one character. -/
theorem matchPairA_length (i : Fin 7) (cs : List Char) (ch : ℕ) (v : Int)
    (r : List Char) (h : matchPairA i cs = some (ch, v, r)) : r.length < cs.length := by
  unfold matchPairA at h
  cases hmu : matchUno cs with
  | none => rw [hmu] at h; exact Option.noConfusion h
  | some pr =>
    obtain ⟨j, r1⟩ := pr
    rw [hmu] at h
    dsimp only at h
    obtain ⟨u, n, o, d, hcs, -, -, -, -⟩ := matchUno_chars cs j r1 hmu
    split at h
    · split at h
      · next x c r2 =>
        split at h
        · split at h
          · exact Option.noConfusion h
          · cases hsv : scanSepValue (r2.dropWhile isDigitChar) with
            | none => rw [hsv] at h; exact Option.noConfusion h
            | some pv =>
              obtain ⟨v2, r7⟩ := pv
              rw [hsv] at h
              dsimp only at h
              injection h with h2
              injection h2 with h3 h4
              injection h4 with h5 h6
              subst h6
              have h5l := scanSepValue_length _ _ _ hsv
              have h6l := dropWhile_length_le isDigitChar r2
              have h7 : cs.length = r2.length + 6 := by rw [hcs]; simp
              omega
        · exact Option.noConfusion h
      · exact Option.noConfusion h
    · exact Option.noConfusion h

/-- `specTokListA` rejects an empty input. -/
theorem specTokListA_nil (i : Fin 7) (sfuel : ℕ) : specTokListA i sfuel [] = none := by
  cases sfuel <;> rfl

/-- `findPairsAAux` is fuel-insensitive once the fuel covers the input. -/
theorem findPairsAAux_fuel (i : Fin 7) :
    ∀ n cs fuel1 fuel2, cs.length ≤ n → cs.length ≤ fuel1 → cs.length ≤ fuel2 →
      findPairsAAux i fuel1 cs = findPairsAAux i fuel2 cs := by
  intro n
  induction n with
  | zero =>
    intro cs fuel1 fuel2 hn _ _
    have hcs : cs = [] := List.length_eq_zero.mp (Nat.le_zero.mp hn)
    subst hcs
    rw [findPairsAAux_nil, findPairsAAux_nil]
  | succ m ih =>
    intro cs fuel1 fuel2 hn h1 h2
    cases cs with
    | nil => rw [findPairsAAux_nil, findPairsAAux_nil]
    | cons c rest =>
      simp only [List.length_cons] at hn h1 h2
      cases fuel1 with
      | zero => omega
      | succ f1 =>
        cases fuel2 with
        | zero => omega
        | succ f2 =>
          simp only [findPairsAAux]
          cases hm : matchPairA i (c :: rest) with
          | none =>
            dsimp only
            exact ih rest f1 f2 (by omega) (by omega) (by omega)
          | some p =>
            obtain ⟨ch, v, r9⟩ := p
            dsimp only
            have hlen := matchPairA_length i (c :: rest) ch v r9 hm
            simp only [List.length_cons] at hlen
            exact congrArg (fun z => (ch, v) :: z)
              (ih r9 f1 f2 (by omega) (by omega) (by omega))

/-- The Form-A walk skips leading whitespace: no match starts at a space. -/
theorem findPairsAAux_dropSpaces (i : Fin 7) :
    ∀ cs fuel, cs.length ≤ fuel →
      findPairsAAux i fuel cs =
        findPairsAAux i (cs.dropWhile isSpaceChar).length (cs.dropWhile isSpaceChar) := by
  intro cs
  induction cs with
  | nil =>
    intro fuel _
    rw [List.dropWhile_nil, findPairsAAux_nil, findPairsAAux_nil]
  | cons c rest ih =>
    intro fuel h
    simp only [List.length_cons] at h
    cases fuel with
    | zero => omega
    | succ f =>
      rw [List.dropWhile_cons]
      cases hsp : isSpaceChar c with
      | false =>
        rw [if_neg Bool.false_ne_true]
        exact findPairsAAux_fuel i (c :: rest).length (c :: rest) (f + 1)
          (c :: rest).length le_rfl (by simp only [List.length_cons]; omega) le_rfl
      | true =>
        rw [if_pos rfl]
        have hnone : matchPairA i (c :: rest) = none :=
          matchPairA_none_head i c rest (isSpaceChar_ne c 'U' hsp (by decide))
            (isSpaceChar_ne c 'u' hsp (by decide))
        simp only [findPairsAAux]
        rw [hnone]
        exact ih f (by omega)

/-- The Form-A walk reproduces any spec token list of its own board. -/
theorem findPairsAAux_of_specTokListA (i : Fin 7) :
    ∀ n cs ps fuel sfuel, cs.length ≤ n → cs.length ≤ fuel →
      specTokListA i sfuel cs = some ps → findPairsAAux i fuel cs = ps := by
  intro n
  induction n with
  | zero =>
    intro cs ps fuel sfuel hn _ hs
    have hcs : cs = [] := List.length_eq_zero.mp (Nat.le_zero.mp hn)
    subst hcs
    rw [specTokListA_nil] at hs
    exact Option.noConfusion hs
  | succ m ih =>
    intro cs ps fuel sfuel hn hf hs
    cases sfuel with
    | zero => exact Option.noConfusion hs
    | succ sf =>
      simp only [specTokListA] at hs
      cases hst : specTokenA cs with
      | none => rw [hst] at hs; exact Option.noConfusion hs
      | some pr =>
        obtain ⟨⟨j, ch, v⟩, rest⟩ := pr
        rw [hst] at hs
        dsimp only at hs
        split at hs
        · next hj =>
          subst hj
          have hm : matchPairA j cs = some (ch, v, rest) :=
            matchPairA_of_specTokenA cs j ch v rest hst
          have hrl := specTokenA_length cs (j, ch, v) rest hst
          cases cs with
          | nil => exact Option.noConfusion hst
          | cons c rest0 =>
            simp only [List.length_cons] at hn hf hrl
            cases fuel with
            | zero => omega
            | succ f =>
              simp only [findPairsAAux]
              rw [hm]
              dsimp only
              split at hs
              · next hre =>
                injection hs with hps
                subst hre
                rw [findPairsAAux_nil, ← hps]
              · next hre =>
                split at hs
                · next hlt =>
                  cases hrec : specTokListA j sf (rest.dropWhile isSpaceChar) with
                  | none => rw [hrec] at hs; exact Option.noConfusion hs
                  | some ps2 =>
                    rw [hrec] at hs
                    dsimp only at hs
                    injection hs with hps
                    subst hps
                    have hd1 : findPairsAAux j f rest =
                        findPairsAAux j (rest.dropWhile isSpaceChar).length
                          (rest.dropWhile isSpaceChar) :=
                      findPairsAAux_dropSpaces j rest f (by omega)
                    rw [hd1]
                    exact congrArg (fun z => (ch, v) :: z)
                      (ih (rest.dropWhile isSpaceChar) ps2
                        (rest.dropWhile isSpaceChar).length sf (by omega) le_rfl hrec)
                · exact Option.noConfusion hs
        · exact Option.noConfusion hs

/-- A spec Form-A line is parsed by `_parse` to its board and exactly its
written pairs. -/
theorem parse_of_specLineA (cs : List Char) (i : Fin 7) (ps : List (ℕ × Int))
    (h : specLineA cs = some (i, ps)) :
    parseLine cs = some ⟨i, buildDict ps⟩ := by
  unfold specLineA at h
  dsimp only at h
  cases hst : specTokenA (stripChars cs) with
  | none => rw [hst] at h; exact Option.noConfusion h
  | some pr =>
    obtain ⟨⟨j, ch, v⟩, rest⟩ := pr
    rw [hst] at h
    dsimp only at h
    cases hsl : specTokListA j (stripChars cs).length (stripChars cs) with
    | none => rw [hsl] at h; exact Option.noConfusion h
    | some ps2 =>
      rw [hsl] at h
      dsimp only at h
      injection h with h2
      injection h2 with hji hps
      subst hji
      subst hps
      have hrl := specTokenA_length (stripChars cs) (j, ch, v) rest hst
      have hlpos : 0 < (stripChars cs).length := by omega
      have hLne : stripChars cs ≠ [] := by
        intro hnil
        rw [hnil] at hlpos
        simp at hlpos
      obtain ⟨sl, hslen⟩ : ∃ sl, (stripChars cs).length = sl + 1 :=
        ⟨(stripChars cs).length - 1, by omega⟩
      have hsl2 := hsl
      rw [hslen] at hsl2
      simp only [specTokListA] at hsl2
      rw [hst] at hsl2
      dsimp only at hsl2
      rw [if_pos rfl] at hsl2
      have hb : boundaryOk rest = true := by
        by_cases hre : rest = []
        · subst hre; rfl
        · rw [if_neg hre] at hsl2
          split at hsl2
          · next hlt =>
            obtain ⟨a, t, hat, hpa⟩ := dropWhile_shrink_head isSpaceChar rest hlt
            rw [hat]
            unfold boundaryOk
            dsimp only
            rw [space_not_word a hpa]
            rfl
          · exact Option.noConfusion hsl2
      have hmF : matchFormAAt (stripChars cs) = some j :=
        matchFormAAt_of_specTokenA (stripChars cs) j ch v rest hst hb
      obtain ⟨c, t, hct⟩ : ∃ c t, stripChars cs = c :: t := by
        cases hcc : stripChars cs with
        | nil => exact absurd hcc hLne
        | cons c t => exact ⟨c, t, rfl⟩
      have hsearch : searchFormA false (stripChars cs) = some j := by
        rw [hct]
        exact searchFormA_head c t j (by rw [← hct]; exact hmF)
      have hfind : findPairsA j (stripChars cs) = ps2 :=
        findPairsAAux_of_specTokListA j (stripChars cs).length (stripChars cs) ps2
          (stripChars cs).length (stripChars cs).length le_rfl le_rfl hsl
      unfold parseLine
      dsimp only
      rw [if_neg hLne, hsearch]
      dsimp only
      rw [hfind]

/-- A capital-`C` spec Form-B token is a spec Form-B token. -/
theorem specTokenB_of_cap (cs : List Char) (x : ℕ × Int) (rest : List Char)
    (h : specTokenBCap cs = some (x, rest)) : specTokenB cs = some (x, rest) := by
  cases cs with
  | nil => exact Option.noConfusion h
  | cons c r1 =>
    simp only [specTokenBCap] at h
    split at h
    · next hc =>
      subst hc
      simp only [specTokenB]
      rw [if_pos (by decide)]
      exact h
    · exact Option.noConfusion h

/-- A capital-`C` spec token list is a spec token list. -/
theorem specTokListB_of_cap :
    ∀ fuel cs ps, specTokListBCap fuel cs = some ps → specTokListB fuel cs = some ps := by
  intro fuel
  induction fuel with
  | zero => intro cs ps h; exact Option.noConfusion h
  | succ f ih =>
    intro cs ps h
    simp only [specTokListBCap] at h
    simp only [specTokListB]
    cases hst : specTokenBCap cs with
    | none => rw [hst] at h; exact Option.noConfusion h
    | some pr =>
      obtain ⟨⟨ch, v⟩, rest⟩ := pr
      rw [hst] at h
      rw [specTokenB_of_cap cs (ch, v) rest hst]
      dsimp only at h ⊢
      split at h
      · next hre => rw [if_pos hre]; exact h
      · next hre =>
        rw [if_neg hre]
        split at h
        · next hlt =>
          rw [if_pos hlt]
          cases hrec : specTokListBCap f (rest.dropWhile isSpaceChar) with
          | none => rw [hrec] at h; exact Option.noConfusion h
          | some ps2 =>
            rw [hrec] at h
            rw [ih (rest.dropWhile isSpaceChar) ps2 hrec]
            exact h
        · next hlt => rw [if_neg hlt]; exact h

/-- A nonempty satisfied `takeWhile` pins a satisfied head. -/
theorem takeWhile_ne_nil_head {α : Type} (p : α → Bool) (l : List α)
    (h : l.takeWhile p ≠ []) : ∃ a t, l = a :: t ∧ p a = true := by
  cases l with
  | nil => simp at h
  | cons a t =>
    cases hpa : p a with
    | false => rw [List.takeWhile_cons, hpa] at h; simp at h
    | true => exact ⟨a, t, rfl, hpa⟩

/-- A capital-`C` spec Form-B token consumes at least one character. -/
theorem specTokenBCap_length (cs : List Char) (x : ℕ × Int) (rest : List Char)
    (h : specTokenBCap cs = some (x, rest)) : rest.length < cs.length := by
  cases cs with
  | nil => exact Option.noConfusion h
  | cons c r1 =>
    simp only [specTokenBCap] at h
    split at h
    · split at h
      · exact Option.noConfusion h
      · cases hsv : scanSepValue (r1.dropWhile isDigitChar) with
        | none => rw [hsv] at h; exact Option.noConfusion h
        | some pv =>
          obtain ⟨v2, r6⟩ := pv
          rw [hsv] at h
          dsimp only at h
          injection h with h2
          injection h2 with h3 h4
          subst h4
          have h5 := scanSepValue_length _ _ _ hsv
          have h6 := dropWhile_length_le isDigitChar r1
          simp only [List.length_cons]
          omega
    · exact Option.noConfusion h

/-- A capital-`C` spec Form-B line is a spec Form-B line. -/
theorem specLineB_of_cap (cs : List Char) (i : Fin 7) (ps : List (ℕ × Int))
    (h : specLineBCap cs = some (i, ps)) : specLineB cs = some (i, ps) := by
  unfold specLineBCap at h
  unfold specLineB
  dsimp only at h ⊢
  split at h
  · rename_i r1 heqL
    cases hmu : matchUno (r1.dropWhile isSpaceChar) with
    | none => rw [hmu] at h; exact Option.noConfusion h
    | some pr =>
      obtain ⟨j, r2⟩ := pr
      rw [hmu] at h
      dsimp only at h ⊢
      split at h
      · rename_i r3 heq2
        split at h
        · exact Option.noConfusion h
        · next hbne =>
          cases hrec : specTokListBCap (r3.dropWhile isSpaceChar).length
              (r3.dropWhile isSpaceChar) with
          | none => rw [hrec] at h; exact Option.noConfusion h
          | some ps2 =>
            rw [hrec] at h
            dsimp only at h
            rw [if_neg hbne, specTokListB_of_cap _ _ _ hrec]
            exact h
      · exact Option.noConfusion h
  · exact Option.noConfusion h

/-- The characters a capital-`C` spec Form-B token consumed: no underscore
among them. -/
theorem specTokenBCap_decomp (cs : List Char) (x : ℕ × Int) (rest : List Char)
    (h : specTokenBCap cs = some (x, rest)) :
    ∃ pre, cs = pre ++ rest ∧ ∀ c ∈ pre, ¬ c = '_' := by
  cases cs with
  | nil => exact Option.noConfusion h
  | cons c r1 =>
    simp only [specTokenBCap] at h
    split at h
    · next hc =>
      split at h
      · exact Option.noConfusion h
      · cases hsv : scanSepValue (r1.dropWhile isDigitChar) with
        | none => rw [hsv] at h; exact Option.noConfusion h
        | some pv =>
          obtain ⟨v2, r6⟩ := pv
          rw [hsv] at h
          dsimp only at h
          injection h with h2
          injection h2 with h3 h4
          subst h4
          obtain ⟨pre2, hpre2, hcls⟩ := scanSepValue_decomp _ _ _ hsv
          refine ⟨c :: (r1.takeWhile isDigitChar ++ pre2), ?_, ?_⟩
          · have e1 : r1 = r1.takeWhile isDigitChar ++ (pre2 ++ r6) := by
              conv_lhs => rw [← List.takeWhile_append_dropWhile isDigitChar r1]
              rw [hpre2]
            calc c :: r1 = c :: (r1.takeWhile isDigitChar ++ (pre2 ++ r6)) :=
                congrArg (fun z => c :: z) e1
              _ = (c :: (r1.takeWhile isDigitChar ++ pre2)) ++ r6 := by
                simp [List.append_assoc]
          · intro a ha
            simp only [List.mem_cons, List.mem_append] at ha
            rcases ha with rfl | ha | ha
            · rw [hc]; decide
            · exact isDigitChar_ne a '_' (List.mem_takeWhile_imp ha) (by decide)
            · rcases hcls a ha with hs | rfl | rfl | rfl | hd
              · exact isSpaceChar_ne a '_' hs (by decide)
              · decide
              · decide
              · decide
              · exact isDigitChar_ne a '_' hd (by decide)
    · exact Option.noConfusion h

/-- No character of a capital-`C` spec Form-B token run is an underscore. -/
theorem specTokListBCap_no_underscore :
    ∀ fuel cs ps, specTokListBCap fuel cs = some ps → ∀ c ∈ cs, ¬ c = '_' := by
  intro fuel
  induction fuel with
  | zero => intro cs ps h; exact Option.noConfusion h
  | succ f ih =>
    intro cs ps h
    simp only [specTokListBCap] at h
    cases hst : specTokenBCap cs with
    | none => rw [hst] at h; exact Option.noConfusion h
    | some pr =>
      obtain ⟨⟨ch, v⟩, rest⟩ := pr
      rw [hst] at h
      dsimp only at h
      obtain ⟨pre, hpre, hprecl⟩ := specTokenBCap_decomp cs (ch, v) rest hst
      split at h
      · next hre =>
        subst hre
        intro c hc
        rw [hpre] at hc
        simp only [List.append_nil] at hc
        exact hprecl c hc
      · next hre =>
        split at h
        · next hlt =>
          cases hrec : specTokListBCap f (rest.dropWhile isSpaceChar) with
          | none => rw [hrec] at h; exact Option.noConfusion h
          | some ps2 =>
            intro c hc
            rw [hpre] at hc
            rcases List.mem_append.mp hc with hc | hc
            · exact hprecl c hc
            · conv at hc => rw [← List.takeWhile_append_dropWhile isSpaceChar rest]
              rcases List.mem_append.mp hc with hc | hc
              · exact isSpaceChar_ne c '_' (List.mem_takeWhile_imp hc) (by decide)
              · exact ih (rest.dropWhile isSpaceChar) ps2 hrec c hc
        · exact Option.noConfusion h

/-- The source's Form-B collection pattern matches a capital-`C` spec token
followed by a word boundary. -/
theorem matchPairBr_of_specTokenBCap (cs : List Char) (ch : ℕ) (v : Int)
    (rest : List Char) (h : specTokenBCap cs = some ((ch, v), rest))
    (hb : boundaryOk rest = true) : matchPairBr cs = some (ch, v, rest) := by
  cases cs with
  | nil => exact Option.noConfusion h
  | cons c r1 =>
    simp only [specTokenBCap] at h
    split at h
    · next hc =>
      subst hc
      split at h
      · exact Option.noConfusion h
      · next hds =>
        obtain ⟨a, t, hat, hpa⟩ := takeWhile_ne_nil_head isDigitChar r1 hds
        have hr2 : r1.dropWhile isSpaceChar = r1 := by
          apply dropWhile_head_false
          intro x hx
          rw [hat] at hx
          have hxa : x = a := by simpa using hx
          rw [hxa]
          exact isDigitChar_not_space a hpa
        cases hsv : scanSepValue (r1.dropWhile isDigitChar) with
        | none => rw [hsv] at h; exact Option.noConfusion h
        | some pv =>
          obtain ⟨v2, r6⟩ := pv
          rw [hsv] at h
          dsimp only at h
          injection h with h2
          injection h2 with h3 h4
          injection h3 with h5 h6
          subst h5
          subst h6
          subst h4
          unfold matchPairBr
          dsimp only
          rw [if_pos rfl, hr2, if_neg hds, hsv]
          dsimp only
          rw [if_pos hb]
    · exact Option.noConfusion h

/-- The source's Form-B collection pattern consumes at least one character. -/
theorem matchPairBr_length (cs : List Char) (ch : ℕ) (v : Int) (r : List Char)
    (h : matchPairBr cs = some (ch, v, r)) : r.length < cs.length := by
  cases cs with
  | nil => exact Option.noConfusion h
  | cons c r1 =>
    simp only [matchPairBr] at h
    split at h
    · split at h
      · exact Option.noConfusion h
      · cases hsv : scanSepValue ((r1.dropWhile isSpaceChar).dropWhile isDigitChar) with
        | none => rw [hsv] at h; exact Option.noConfusion h
        | some pv =>
          obtain ⟨v2, r8⟩ := pv
          rw [hsv] at h
          dsimp only at h
          split at h
          · injection h with h2
            injection h2 with h3 h4
            injection h4 with h5 h6
            subst h6
            have h5l := scanSepValue_length _ _ _ hsv
            have h6l := dropWhile_length_le isDigitChar (r1.dropWhile isSpaceChar)
            have h7 := dropWhile_length_le isSpaceChar r1
            simp only [List.length_cons]
            omega
          · exact Option.noConfusion h
    · exact Option.noConfusion h

/-- `findPairsBrAux` is fuel-insensitive once the fuel covers the input. -/
theorem findPairsBrAux_fuel :
    ∀ n cs pw fuel1 fuel2, cs.length ≤ n → cs.length ≤ fuel1 → cs.length ≤ fuel2 →
      findPairsBrAux fuel1 pw cs = findPairsBrAux fuel2 pw cs := by
  intro n
  induction n with
  | zero =>
    intro cs pw fuel1 fuel2 hn _ _
    have hcs : cs = [] := List.length_eq_zero.mp (Nat.le_zero.mp hn)
    subst hcs
    rw [findPairsBrAux_nil, findPairsBrAux_nil]
  | succ m ih =>
    intro cs pw fuel1 fuel2 hn h1 h2
    cases cs with
    | nil => rw [findPairsBrAux_nil, findPairsBrAux_nil]
    | cons c rest =>
      simp only [List.length_cons] at hn h1 h2
      cases fuel1 with
      | zero => omega
      | succ f1 =>
        cases fuel2 with
        | zero => omega
        | succ f2 =>
          simp only [findPairsBrAux]
          cases pw with
          | true =>
            rw [if_neg (by decide), if_neg (by decide)]
            exact ih rest (isWordChar c) f1 f2 (by omega) (by omega) (by omega)
          | false =>
            rw [if_pos rfl, if_pos rfl]
            cases hm : matchPairBr (c :: rest) with
            | none =>
              dsimp only
              exact ih rest (isWordChar c) f1 f2 (by omega) (by omega) (by omega)
            | some p =>
              obtain ⟨ch, v, r⟩ := p
              dsimp only
              have hlen := matchPairBr_length (c :: rest) ch v r hm
              simp only [List.length_cons] at hlen
              exact congrArg (fun z => (ch, v) :: z)
                (ih r true f1 f2 (by omega) (by omega) (by omega))

/-- The Form-B walk skips leading whitespace when no word character
precedes: no match starts at a space, and a space clears the word flag. -/
theorem findPairsBrAux_dropSpaces :
    ∀ cs fuel, cs.length ≤ fuel →
      findPairsBrAux fuel false cs =
        findPairsBrAux (cs.dropWhile isSpaceChar).length false (cs.dropWhile isSpaceChar) := by
  intro cs
  induction cs with
  | nil =>
    intro fuel _
    rw [List.dropWhile_nil, findPairsBrAux_nil, findPairsBrAux_nil]
  | cons c rest ih =>
    intro fuel h
    simp only [List.length_cons] at h
    cases fuel with
    | zero => omega
    | succ f =>
      rw [List.dropWhile_cons]
      cases hsp : isSpaceChar c with
      | false =>
        rw [if_neg Bool.false_ne_true]
        exact findPairsBrAux_fuel (c :: rest).length (c :: rest) false (f + 1)
          (c :: rest).length le_rfl (by simp only [List.length_cons]; omega) le_rfl
      | true =>
        rw [if_pos rfl]
        have hnone : matchPairBr (c :: rest) = none :=
          matchPairBr_none_head c rest (isSpaceChar_ne c 'C' hsp (by decide))
        simp only [findPairsBrAux]
        rw [if_pos trivial, hnone]
        dsimp only
        rw [space_not_word c hsp]
        exact ih f (by omega)

/-- The Form-B walk, entered clear of a word character, reproduces any
capital-`C` spec token list. -/
theorem findPairsBrAux_of_specTokListBCap :
    ∀ n cs ps fuel sfuel, cs.length ≤ n → cs.length ≤ fuel →
      specTokListBCap sfuel cs = some ps → findPairsBrAux fuel false cs = ps := by
  intro n
  induction n with
  | zero =>
    intro cs ps fuel sfuel hn _ hs
    have hcs : cs = [] := List.length_eq_zero.mp (Nat.le_zero.mp hn)
    subst hcs
    cases sfuel with
    | zero => exact Option.noConfusion hs
    | succ sf => exact Option.noConfusion hs
  | succ m ih =>
    intro cs ps fuel sfuel hn hf hs
    cases sfuel with
    | zero => exact Option.noConfusion hs
    | succ sf =>
      simp only [specTokListBCap] at hs
      cases hst : specTokenBCap cs with
      | none => rw [hst] at hs; exact Option.noConfusion hs
      | some pr =>
        obtain ⟨⟨ch, v⟩, rest⟩ := pr
        rw [hst] at hs
        dsimp only at hs
        have hrl := specTokenBCap_length cs (ch, v) rest hst
        have hb : boundaryOk rest = true := by
          by_cases hre : rest = []
          · subst hre; rfl
          · rw [if_neg hre] at hs
            split at hs
            · next hlt =>
              obtain ⟨a, t, hat, hpa⟩ := dropWhile_shrink_head isSpaceChar rest hlt
              rw [hat]
              unfold boundaryOk
              dsimp only
              rw [space_not_word a hpa]
              rfl
            · exact Option.noConfusion hs
        have hm : matchPairBr cs = some (ch, v, rest) :=
          matchPairBr_of_specTokenBCap cs ch v rest hst hb
        cases cs with
        | nil => exact Option.noConfusion hst
        | cons c rest0 =>
          simp only [List.length_cons] at hn hf hrl
          cases fuel with
          | zero => omega
          | succ f =>
            simp only [findPairsBrAux]
            rw [if_pos trivial, hm]
            dsimp only
            split at hs
            · next hre =>
              injection hs with hps
              subst hre
              rw [findPairsBrAux_nil, ← hps]
            · next hre =>
              split at hs
              · next hlt =>
                cases hrec : specTokListBCap sf (rest.dropWhile isSpaceChar) with
                | none => rw [hrec] at hs; exact Option.noConfusion hs
                | some ps2 =>
                  rw [hrec] at hs
                  dsimp only at hs
                  injection hs with hps
                  subst hps
                  obtain ⟨a, t, hat, hpa⟩ := dropWhile_shrink_head isSpaceChar rest hlt
                  subst hat
                  simp only [List.length_cons] at hrl
                  cases f with
                  | zero => omega
                  | succ f2 =>
                    simp only [findPairsBrAux]
                    rw [if_neg (by decide)]
                    rw [space_not_word a hpa]
                    have hd1 : findPairsBrAux f2 false t =
                        findPairsBrAux (t.dropWhile isSpaceChar).length false
                          (t.dropWhile isSpaceChar) :=
                      findPairsBrAux_dropSpaces t f2 (by omega)
                    rw [hd1]
                    have hdw : (a :: t).dropWhile isSpaceChar = t.dropWhile isSpaceChar := by
                      rw [List.dropWhile_cons, if_pos hpa]
                    rw [hdw] at hrec
                    have hlt2 : (t.dropWhile isSpaceChar).length ≤ t.length :=
                      dropWhile_length_le isSpaceChar t
                    exact congrArg (fun z => (ch, v) :: z)
                      (ih (t.dropWhile isSpaceChar) ps2
                        (t.dropWhile isSpaceChar).length sf (by omega) le_rfl hrec)
              · exact Option.noConfusion hs

/-- The bracket-tag pattern matches the spec line's opening parts. -/
theorem matchBracketAt_of_parts (r1 : List Char) (j : Fin 7) (r2 r3 : List Char)
    (hmu : matchUno (r1.dropWhile isSpaceChar) = some (j, r2))
    (heq2 : r2.dropWhile isSpaceChar = ']' :: r3) :
    matchBracketAt ('[' :: r1) = some j := by
  simp [matchBracketAt, hmu, heq2]

/-- `re.sub` of the anchored bracket tag removes exactly the spec line's
tag and the whitespace after it. -/
theorem subBracketTag_of_parts (r1 : List Char) (j : Fin 7) (r2 r3 : List Char)
    (hmu : matchUno (r1.dropWhile isSpaceChar) = some (j, r2))
    (heq2 : r2.dropWhile isSpaceChar = ']' :: r3) :
    subBracketTag j ('[' :: r1) = r3.dropWhile isSpaceChar := by
  have hsp : isSpaceChar '[' = false := rfl
  simp [subBracketTag, List.dropWhile_cons, hsp, hmu, heq2]

/-- A capital-`C` spec Form-B line is parsed by `_parse` to its tagged board
and exactly its written pairs. -/
theorem parse_of_specLineBCap (cs : List Char) (i : Fin 7) (ps : List (ℕ × Int))
    (h : specLineBCap cs = some (i, ps)) :
    parseLine cs = some ⟨i, buildDict ps⟩ := by
  unfold specLineBCap at h
  dsimp only at h
  split at h
  · rename_i r1 heqL
    cases hmu : matchUno (r1.dropWhile isSpaceChar) with
    | none => rw [hmu] at h; exact Option.noConfusion h
    | some pr =>
      obtain ⟨j, r2⟩ := pr
      rw [hmu] at h
      dsimp only at h
      split at h
      · rename_i r3 heq2
        split at h
        · exact Option.noConfusion h
        · next hbne =>
          cases hrec : specTokListBCap (r3.dropWhile isSpaceChar).length
              (r3.dropWhile isSpaceChar) with
          | none => rw [hrec] at h; exact Option.noConfusion h
          | some ps2 =>
            rw [hrec] at h
            dsimp only at h
            injection h with h2
            injection h2 with hji hps
            subst hji
            subst hps
            have hLne : stripChars cs ≠ [] := by rw [heqL]; simp
            obtain ⟨u, n2, o, d, hr1d, hu, hn2, ho, hd⟩ := matchUno_chars _ j r2 hmu
            have hnoU : ∀ c ∈ stripChars cs, ¬ c = '_' := by
              rw [heqL]
              intro c hc
              rcases List.mem_cons.mp hc with rfl | hc
              · decide
              · conv at hc => rw [← List.takeWhile_append_dropWhile isSpaceChar r1]
                rcases List.mem_append.mp hc with hc | hc
                · exact isSpaceChar_ne c '_' (List.mem_takeWhile_imp hc) (by decide)
                · rw [hr1d] at hc
                  rcases List.mem_cons.mp hc with rfl | hc
                  · rcases hu with rfl | rfl <;> decide
                  · rcases List.mem_cons.mp hc with rfl | hc
                    · rcases hn2 with rfl | rfl <;> decide
                    · rcases List.mem_cons.mp hc with rfl | hc
                      · rcases ho with rfl | rfl <;> decide
                      · rcases List.mem_cons.mp hc with rfl | hc
                        · exact isDigitChar_ne c '_' hd (by decide)
                        · conv at hc =>
                            rw [← List.takeWhile_append_dropWhile isSpaceChar r2]
                          rcases List.mem_append.mp hc with hc | hc
                          · exact isSpaceChar_ne c '_' (List.mem_takeWhile_imp hc)
                              (by decide)
                          · rw [heq2] at hc
                            rcases List.mem_cons.mp hc with rfl | hc
                            · decide
                            · conv at hc =>
                                rw [← List.takeWhile_append_dropWhile isSpaceChar r3]
                              rcases List.mem_append.mp hc with hc | hc
                              · exact isSpaceChar_ne c '_'
                                  (List.mem_takeWhile_imp hc) (by decide)
                              · exact specTokListBCap_no_underscore _ _ _ hrec c hc
            have hsA : searchFormA false (stripChars cs) = none :=
              searchFormA_none_no_underscore _ hnoU
            have hmb : matchBracketAt (stripChars cs) = some j := by
              rw [heqL]; exact matchBracketAt_of_parts r1 j r2 r3 hmu heq2
            have hsB : searchBracket (stripChars cs) = some j :=
              searchBracket_head _ j hmb
            have hsub : subBracketTag j (stripChars cs) = r3.dropWhile isSpaceChar := by
              rw [heqL]; exact subBracketTag_of_parts r1 j r2 r3 hmu heq2
            have hfind : findPairsBr (r3.dropWhile isSpaceChar) = ps2 :=
              findPairsBrAux_of_specTokListBCap (r3.dropWhile isSpaceChar).length
                (r3.dropWhile isSpaceChar) ps2 (r3.dropWhile isSpaceChar).length
                (r3.dropWhile isSpaceChar).length le_rfl le_rfl hrec
            unfold parseLine
            dsimp only
            rw [if_neg hLne, hsA]
            dsimp only
            rw [hsB]
            dsimp only
            rw [hsub, hfind]
      · exact Option.noConfusion h
  · exact Option.noConfusion h

/-- Claim C7 (amended): `_parse` is total, and it agrees with the wire
grammar as far as the source's patterns reach. Every spec Form-A line (one
or more same-board `UNO{n}_Ck (:|=) v` tokens, case-insensitive tag) parses
to its board with exactly the written channel/value pairs, later writes
overwriting earlier ones. A spec Form-B line whose channel tokens use a
capital `C` is a spec Form-B line and parses likewise. A line on which
neither the Form-A search nor the bracket search matches yields no reading.
The unamended claim fails twice: lowercase-`c` Form-B tokens are invisible
to the collection pattern (compiled without IGNORECASE), and a bracket tag
followed by no token yields an empty reading instead of none. -/
theorem C7_parse_agrees_with_spec :
    (∀ cs i ps, specLineA cs = some (i, ps) →
      parseLine cs = some ⟨i, buildDict ps⟩) ∧
    (∀ cs i ps, specLineBCap cs = some (i, ps) →
      specLineB cs = some (i, ps) ∧ parseLine cs = some ⟨i, buildDict ps⟩) ∧
    (∀ cs, searchFormA false (stripChars cs) = none →
      searchBracket (stripChars cs) = none → parseLine cs = none) :=
  ⟨parse_of_specLineA,
   fun cs i ps h => ⟨specLineB_of_cap cs i ps h, parse_of_specLineBCap cs i ps h⟩,
   parse_unmatched⟩

/-- Claim C7, counterexample to the unamended claim: the spec Form-B line
`[UNO0] c1=5` writes channel 1, but `_parse` returns an empty map for it
(the lowercase `c` escapes the case-sensitive collection pattern); and
`[UNO0] hello` matches neither wire form yet yields a reading. -/
theorem C7_the_counterexample :
    specLineB lowerLine = some (0, [(1, 5)]) ∧
    specLineBCap lowerLine = none ∧
    parseLine lowerLine = some ⟨0, []⟩ ∧
    specLineA taglessLine = none ∧ specLineB taglessLine = none ∧
    parseLine taglessLine = some ⟨0, []⟩ ∧ ¬ claimC7 := by
  refine ⟨by decide, by decide, by decide, by decide, by decide, by decide, ?_⟩
  intro hcl
  have h2 := hcl.2.1 lowerLine 0 [(1, 5)] (by decide)
  have h4 := (show parseLine lowerLine = some ⟨0, []⟩ from by decide).symm.trans h2
  injection h4 with h5
  exact absurd (congrArg BoardData.data h5) (by decide)

/-- Witness for the amended C7 theorem: one concrete spec Form-A line and
one concrete capital-`C` spec Form-B line, fully evaluated. -/
theorem C7_parse_agrees_with_spec_witness :
    parseLine formALine = some ⟨3, buildDict [(12, -45), (7, 9)]⟩ ∧
    parseLine capBLine = some ⟨2, buildDict [(0, 7), (15, -3)]⟩ :=
  ⟨C7_parse_agrees_with_spec.1 formALine 3 [(12, -45), (7, 9)] (by decide),
   (C7_parse_agrees_with_spec.2.1 capBLine 2 [(0, 7), (15, -3)] (by decide)).2⟩
